import Mathlib

/-!
Verification development for the chafa terminal-info core
(src/chafa/chafa-term-info.c): the template compiler (parse_seq_args),
the sequence emitter (EMIT_SEQ_DEF / emit_seq_0_args_uint), and the
reference-counted container (chafa_term_info_new / copy / set_seq /
get_seq / have_seq).

Modelling conventions:
- C strings become `List Char` (NUL-free payload; the terminating NUL is
  implicit in the list end).
- The destination buffer of the emitter is modelled by the list of write
  events the emitter performs: each event is a pair (offset past the given
  cursor, byte written).  `copy_bytes` unconditionally copies
  `max n 1` bytes, exactly as the C helper does; the returned cursor
  advance is tracked separately.  This makes "how many bytes are written
  past the cursor" a statable quantity.
- The heap-allocated per-kind raw template strings (`unparsed_str`,
  `g_strdup` / `g_free`) are modelled by an explicit arena `Heap`; an
  address is an index into the arena and allocation always returns a
  fresh index, matching an allocator that never hands out a live address.
- Machine integers: all arithmetic stays far below 2^31; `guint8`
  truncation is written explicitly as `% 256` where the C converts an
  `int` expression into a `guint8` argument (the aixterm wrappers).
  The `pre_len` field is a `guint8` in C; the parser only ever stores
  values bounded by CHAFA_TERM_SEQ_LENGTH_MAX = 96 < 256 in it (the
  scan stops once j reaches 96), so plain `Nat` is faithful there.
-/

deriving instance DecidableEq for Except

/-- Modelled from the spec: CHAFA_TERM_SEQ_LENGTH_MAX, the fixed maximum
compiled/emitted sequence byte length.  The constant is declared in the
public header chafa-term-info.h, which is not under src/; the public
documentation of the library fixes it at 96 bytes. -/
abbrev CHAFA_TERM_SEQ_LENGTH_MAX : Nat := 96

/-- Modelled from the spec: CHAFA_TERM_SEQ_MAX, the number of members of
the closed sequence-kind enumeration.  The enumeration is generated from
chafa-term-seq-def.h, which is not under src/; the spec only calls it a
small closed set (a few dozen kinds: cursor motion, colors, sixels...).
We fix 42.  Every theorem below is insensitive to the exact value as long
as it stays below CHAFA_TERM_SEQ_LENGTH_MAX - 1, which any plausible
count for the era of this source satisfies. -/
abbrev CHAFA_TERM_SEQ_MAX : Nat := 42

/-- Maximum number of argument slots + 1 for the sentinel (source line 42). -/
abbrev CHAFA_TERM_SEQ_ARGS_MAX : Nat := 8

/-- Sentinel argument index marking an unused slot (source line 43). -/
abbrev ARG_INDEX_SENTINEL : Nat := 255

/-- One compiled argument slot: length of the literal run preceding the
slot and the index of the argument the slot consumes (struct SeqArgInfo). -/
structure SeqArgInfo where
  pre_len : Nat
  arg_index : Nat
  deriving DecidableEq, Repr

/-- Static per-kind metadata: declared argument count and the byte width
of the argument type (struct SeqMeta; `sizeof (arg_type)`). -/
structure SeqMeta where
  n_args : Nat
  type_size : Nat
  deriving DecidableEq, Repr

/-- Failure modes of parse_seq_args.  `badArguments` and `seqTooLong`
correspond to the two `g_set_error` calls; `badEscape` is the bad "%?"
escape branch, which returns FALSE without setting any error. -/
inductive ParseError where
  | badArguments
  | seqTooLong
  | badEscape
  deriving DecidableEq, Repr

/-- The C sets a GError only for `badArguments` and `seqTooLong`; a bad
escape leaves the error location untouched (NULL). -/
def errOut : ParseError → Option ParseError
  | ParseError.badEscape => none
  | e => some e

/-- Mutable state of the scan loop in parse_seq_args: the compiled
literal bytes written so far (`out`, with `j = out.length`), the
completed argument slots (`slots`, with `k = slots.length`), and the
running literal-run length since the last placeholder (`preLen`). -/
structure LoopState where
  out : List Char
  slots : List SeqArgInfo
  j : Nat
  k : Nat
  preLen : Nat
  deriving DecidableEq, Repr

/-- Control state of the scan loop, serialized one input character at a
time.  `running s false` is the top of a loop iteration in the C code;
`running s true` means the previous character was an unescaped percent
and the escape character is expected next (the C reads it in the same
iteration through `i++`; the guard was checked before the percent, not
between the two characters); `stopped` means the guard
`j < CHAFA_TERM_SEQ_LENGTH_MAX && k < CHAFA_TERM_SEQ_ARGS_MAX` failed
and the rest of the input is ignored; `failed` is a `goto out` with
FALSE. -/
inductive ScanSt where
  | running (s : LoopState) (pending : Bool)
  | stopped (s : LoopState)
  | failed (e : ParseError)
  deriving DecidableEq, Repr

/-- One character of the scan loop of parse_seq_args (source lines
108-154): "%%" appends a literal percent, "%1".."%8" closes a slot after
checking the index against n, any other character after a percent is a
bad escape, and a plain character extends the current literal run. -/
def scanStep (n : Nat) (st : ScanSt) (c : Char) : ScanSt :=
  match st with
  | ScanSt.failed e => ScanSt.failed e
  | ScanSt.stopped s => ScanSt.stopped s
  | ScanSt.running s pending =>
    if pending then
      if c = '%' then
        ScanSt.running ⟨s.out ++ ['%'], s.slots, s.j + 1, s.k, s.preLen + 1⟩ false
      else if '1' ≤ c ∧ c ≤ '8' then
        if n ≤ c.toNat - '1'.toNat then
          ScanSt.failed ParseError.badArguments
        else
          ScanSt.running
            ⟨s.out, s.slots ++ [⟨s.preLen, c.toNat - '1'.toNat⟩], s.j, s.k + 1, 0⟩ false
      else
        ScanSt.failed ParseError.badEscape
    else
      if s.j < CHAFA_TERM_SEQ_LENGTH_MAX ∧ s.k < CHAFA_TERM_SEQ_ARGS_MAX then
        if c = '%' then
          ScanSt.running s true
        else
          ScanSt.running ⟨s.out ++ [c], s.slots, s.j + 1, s.k, s.preLen + 1⟩ false
      else
        ScanSt.stopped s

/-- The whole scan loop, from an arbitrary control state. -/
def scanTemplate (n : Nat) (inp : List Char) (st : ScanSt) : ScanSt :=
  inp.foldl (scanStep n) st

/-- Loop exit: reaching the terminating NUL while a percent is pending
is the bad "%?" escape on the NUL character (source lines 143-147);
otherwise the loop exits with the current state. -/
def finishScan : ScanSt → Except ParseError LoopState
  | ScanSt.running s false => Except.ok s
  | ScanSt.running _ true => Except.error ParseError.badEscape
  | ScanSt.stopped s => Except.ok s
  | ScanSt.failed e => Except.error e

/-- parse_seq_args (source lines 92-180): run the scan, reject when all
8 slots were consumed, reject when the worst-case formatted length
`j + k * arg_len_max + 1` exceeds CHAFA_TERM_SEQ_LENGTH_MAX, otherwise
finish the slot table with the sentinel slot carrying the trailing
literal run and the initial `{0, SENTINEL}` padding left in the
remaining entries. -/
def parse_seq_args (inp : List Char) (n argLenMax : Nat) :
    Except ParseError (List Char × List SeqArgInfo) :=
  match finishScan (scanTemplate n inp (ScanSt.running ⟨[], [], 0, 0, 0⟩ false)) with
  | Except.error e => Except.error e
  | Except.ok s =>
    if s.k = CHAFA_TERM_SEQ_ARGS_MAX then
      Except.error ParseError.badArguments
    else if CHAFA_TERM_SEQ_LENGTH_MAX < s.j + s.k * argLenMax + 1 then
      Except.error ParseError.seqTooLong
    else
      Except.ok (s.out,
        s.slots ++ ⟨s.preLen, ARG_INDEX_SENTINEL⟩ ::
          List.replicate (CHAFA_TERM_SEQ_ARGS_MAX - 1 - s.k) ⟨0, ARG_INDEX_SENTINEL⟩)

/-- Arena of heap-allocated strings: `g_strdup` appends a fresh cell,
`g_free` clears a cell.  An address is an index into the arena. -/
structure Heap where
  cells : List (Option (List Char))
  deriving Repr

def Heap.get (h : Heap) (a : Nat) : Option (List Char) :=
  h.cells.getD a none

def Heap.alloc (h : Heap) (s : List Char) : Heap × Nat :=
  (⟨h.cells ++ [some s]⟩, h.cells.length)

def Heap.free (h : Heap) (a : Nat) : Heap :=
  ⟨h.cells.set a none⟩

/-- g_free on a possibly-NULL pointer. -/
def heapFreeOpt (h : Heap) (a? : Option Nat) : Heap :=
  match a? with
  | none => h
  | some a => h.free a

/-- struct ChafaTermInfo minus the reference count: per kind the
embedded compiled literal row `seq_str` (conceptually
CHAFA_TERM_SEQ_LENGTH_MAX bytes), the embedded slot table `seq_args`
(CHAFA_TERM_SEQ_ARGS_MAX entries) and the owned raw template
`unparsed_str` (a heap address or NULL). -/
structure TermInfo where
  seq_str : Nat → List Char
  seq_args : Nat → List SeqArgInfo
  unparsed_str : Nat → Option Nat

/-- chafa_term_info_new (source lines 301-316): `g_new0` zeroes the
whole struct, then only entry 0 of each slot table gets the sentinel
index; entries 1..7 stay all-zero. -/
def chafa_term_info_new : TermInfo where
  seq_str := fun _ => List.replicate CHAFA_TERM_SEQ_LENGTH_MAX '\x00'
  seq_args := fun _ =>
    ⟨0, ARG_INDEX_SENTINEL⟩ :: List.replicate (CHAFA_TERM_SEQ_ARGS_MAX - 1) ⟨0, 0⟩
  unparsed_str := fun _ => none

/-- chafa_term_info_set_seq (source lines 452-493).  Result is
(success, error out-parameter, heap, container).  A NULL template clears
the kind: byte 0 of the literal row and entry 0 of the slot table are
reset and the raw template freed.  Otherwise the template is parsed into
locals and installed only on success.  The install step is modelled
bug-for-bug: the local compiled buffer is declared
`gchar seq_str [CHAFA_TERM_SEQ_MAX]` and the memcpy into the container
copies CHAFA_TERM_SEQ_MAX bytes (not CHAFA_TERM_SEQ_LENGTH_MAX), so only
the first CHAFA_TERM_SEQ_MAX compiled bytes reach the container row and
the rest of the row keeps its previous contents.  Local stack bytes
beyond the compiled length are modelled as NUL; no theorem below depends
on their value. -/
def chafa_term_info_set_seq (h : Heap) (t : TermInfo) (seq : Int) (m : SeqMeta)
    (str : Option (List Char)) : Bool × Option ParseError × Heap × TermInfo :=
  if 0 ≤ seq ∧ seq < (CHAFA_TERM_SEQ_MAX : Int) then
    let k := seq.toNat
    match str with
    | none =>
      (true, none, heapFreeOpt h (t.unparsed_str k),
        { seq_str := fun i => if i = k then (t.seq_str k).set 0 '\x00' else t.seq_str i
          seq_args := fun i =>
            if i = k then (t.seq_args k).set 0 ⟨0, ARG_INDEX_SENTINEL⟩ else t.seq_args i
          unparsed_str := fun i => if i = k then none else t.unparsed_str i })
    | some s =>
      match parse_seq_args s m.n_args (if m.type_size = 1 then 3 else 4) with
      | Except.error e => (false, errOut e, h, t)
      | Except.ok r =>
        let newRow :=
          (r.1 ++ List.replicate (CHAFA_TERM_SEQ_MAX - r.1.length) '\x00').take
              CHAFA_TERM_SEQ_MAX
            ++ (t.seq_str k).drop CHAFA_TERM_SEQ_MAX
        let h2 := heapFreeOpt h (t.unparsed_str k)
        let ha := h2.alloc s
        (true, none, ha.1,
          { seq_str := fun i => if i = k then newRow else t.seq_str i
            seq_args := fun i => if i = k then r.2 else t.seq_args i
            unparsed_str := fun i => if i = k then some ha.2 else t.unparsed_str i })
  else
    (false, none, h, t)

/-- chafa_term_info_have_seq (source lines 400-407): NULL container or
out-of-range kind yields FALSE. -/
def chafa_term_info_have_seq (t? : Option TermInfo) (seq : Int) : Bool :=
  match t? with
  | none => false
  | some t =>
    if 0 ≤ seq ∧ seq < (CHAFA_TERM_SEQ_MAX : Int) then
      (t.unparsed_str seq.toNat).isSome
    else
      false

/-- chafa_term_info_get_seq (source lines 418-425): NULL container or
out-of-range kind yields NULL, otherwise the stored raw template (the
content of the owned string, or NULL when absent). -/
def chafa_term_info_get_seq (h : Heap) (t? : Option TermInfo) (seq : Int) :
    Option (List Char) :=
  match t? with
  | none => none
  | some t =>
    if 0 ≤ seq ∧ seq < (CHAFA_TERM_SEQ_MAX : Int) then
      match t.unparsed_str seq.toNat with
      | none => none
      | some a => h.get a
    else
      none

/-- The loop of chafa_term_info_copy (source lines 338-343): the struct
was bulk-copied, then each configured kind below CHAFA_TERM_SEQ_MAX gets
a fresh duplicate of its raw template. -/
def copyKinds (t : TermInfo) : Nat → Heap → Heap × (Nat → Option Nat)
  | 0, h => (h, t.unparsed_str)
  | i + 1, h =>
    let r := copyKinds t i h
    match t.unparsed_str i with
    | none => r
    | some a =>
      let ra := r.1.alloc ((r.1.get a).getD [])
      (ra.1, fun j => if j = i then some ra.2 else r.2 j)

/-- chafa_term_info_copy (source lines 326-345): memcpy of the whole
struct (compiled rows and slot tables shared by value) followed by
duplication of every present raw template string. -/
def chafa_term_info_copy (h : Heap) (t : TermInfo) : Heap × TermInfo :=
  let r := copyKinds t CHAFA_TERM_SEQ_MAX h
  (r.1, { seq_str := t.seq_str, seq_args := t.seq_args, unparsed_str := r.2 })

/-- Raw template string of a kind as observed through the heap. -/
def rawStringOf (h : Heap) (t : TermInfo) (k : Nat) : Option (List Char) :=
  match t.unparsed_str k with
  | none => none
  | some a => h.get a

/-- The `n` bytes of a literal row starting at offset `ofs`; bytes past
the end of the row read as NUL (rows are conceptually fixed
CHAFA_TERM_SEQ_LENGTH_MAX arrays and every in-bounds access stays inside
the stored list in the proofs below). -/
def rowSlice (row : List Char) : Nat → Nat → List Char
  | _, 0 => []
  | ofs, n + 1 => row.getD ofs '\x00' :: rowSlice row (ofs + 1) n

/-- Consecutive write events placing the bytes `xs` at buffer offsets
`pos`, `pos+1`, ... -/
def stripeWrites : List Char → Nat → List (Nat × Char)
  | [], _ => []
  | c :: rest, pos => (pos, c) :: stripeWrites rest (pos + 1)

/-- Write events of copy_bytes (source lines 79-90): starting at buffer
offset `pos`, copy `n` bytes from the literal row at `ofs` — but always
at least one byte, even for n = 0 (the deliberate micro-optimization the
compiler reserves one slack byte for). -/
def copy_bytes (row : List Char) (ofs pos n : Nat) : List (Nat × Char) :=
  stripeWrites (rowSlice row ofs (max n 1)) pos

/-- Decimal ASCII digits, most significant first, no leading zeros, no
sign; fuel-based so that it reduces in the kernel. -/
def decDigitsAux : Nat → Nat → List Char → List Char
  | 0, _, acc => acc
  | fuel + 1, n, acc =>
    let d := Char.ofNat (48 + n % 10)
    if n < 10 then d :: acc else decDigitsAux fuel (n / 10) (d :: acc)

/-- Modelled from the spec: the bounded unsigned-integer-to-decimal
routines chafa_format_dec_uint_0_to_9999 / chafa_format_dec_u8 live in
internal/chafa-string-util.h, which is not under src/.  Per the spec
they append the decimal ASCII digits of the value, no leading zeros, no
sign, for in-range values (0..9999 wide, 0..255 byte-sized). -/
def decDigits (n : Nat) : List Char :=
  decDigitsAux (n + 1) n []

/-- Write events for appending a formatted digit string at `pos`. -/
def writeDigits (ds : List Char) (pos : Nat) : List (Nat × Char) :=
  stripeWrites ds pos

/-- The per-slot body of the emit loop (EMIT_SEQ_DEF, source lines
198-204): copy the preceding literal run, advance cursor and literal
offset, then format the argument selected by the slot.  Returns
(write events, cursor, literal offset).  The argument lookup
`args [seq_args [i].arg_index]` is modelled with default 0; when the
slot table is consistent the index is always in range, and the one
divergent case (a sentinel slot reached because the template used fewer
placeholders than the kind declares) reads out-of-bounds memory in C —
any value only makes the emitted byte count larger than the 0 modelled
here. -/
def emitArgSlots (row : List Char) (vals : List Nat) :
    List SeqArgInfo → Nat → Nat → List (Nat × Char) × Nat × Nat
  | [], pos, ofs => ([], pos, ofs)
  | a :: rest, pos, ofs =>
    let w1 := copy_bytes row ofs pos a.pre_len
    let ds := decDigits (vals.getD a.arg_index 0)
    let w2 := writeDigits ds (pos + a.pre_len)
    let r := emitArgSlots row vals rest (pos + a.pre_len + ds.length) (ofs + a.pre_len)
    (w1 ++ (w2 ++ r.1), r.2)

/-- emit_seq_guint / emit_seq_guint8 (EMIT_SEQ_DEF, source lines
182-213): if the first slot is the sentinel the kind is unset and
nothing is emitted; otherwise the loop runs over the first `nArgs` slot
table entries and the trailing literal run of entry `nArgs` is copied
last.  Returns (write events, cursor advance past the given cursor). -/
def emit_seq (row : List Char) (args8 : List SeqArgInfo) (nArgs : Nat)
    (vals : List Nat) : List (Nat × Char) × Nat :=
  if (args8.headD ⟨0, 0⟩).arg_index = ARG_INDEX_SENTINEL then
    ([], 0)
  else
    let r := emitArgSlots row vals (args8.take nArgs) 0 0
    let fin := args8.getD nArgs ⟨0, ARG_INDEX_SENTINEL⟩
    (r.1 ++ copy_bytes row r.2.2 r.2.1 fin.pre_len, r.2.1 + fin.pre_len)

/-- emit_seq_0_args_uint (source lines 215-220): no sentinel check; copy
the literal run of slot 0 and advance by its length. -/
def emit_seq_0_args (row : List Char) (args8 : List SeqArgInfo) :
    List (Nat × Char) × Nat :=
  (copy_bytes row 0 0 (args8.headD ⟨0, ARG_INDEX_SENTINEL⟩).pre_len,
    (args8.headD ⟨0, ARG_INDEX_SENTINEL⟩).pre_len)

/-- The argument-taking public emit entry points (arities 1, 2, 3, 6 all
route through emit_seq_guint / emit_seq_guint8 with n_args = arity). -/
def chafa_term_info_emit_argful (t : TermInfo) (seq nArgs : Nat)
    (vals : List Nat) : List (Nat × Char) × Nat :=
  emit_seq (t.seq_str seq) (t.seq_args seq) nArgs vals

/-- The 0-argument public emit entry points. -/
def chafa_term_info_emit_0 (t : TermInfo) (seq : Nat) : List (Nat × Char) × Nat :=
  emit_seq_0_args (t.seq_str seq) (t.seq_args seq)

/-- The aixterm foreground transform of the DEFINE_EMIT_SEQ_1_aix16fg
wrapper (source line 509): `arg + (arg < 8 ? 30 : (90 - 8))`, truncated
to guint8 at the call into emit_seq_1_args_uint8. -/
def aix16fg (v : Nat) : Nat :=
  (v + if v < 8 then 30 else 90 - 8) % 256

/-- The aixterm background transform of the DEFINE_EMIT_SEQ_1_aix16bg
wrapper (source line 513): `arg + (arg < 8 ? 40 : (100 - 8))`, truncated
to guint8. -/
def aix16bg (v : Nat) : Nat :=
  (v + if v < 8 then 40 else 100 - 8) % 256

/-- DEFINE_EMIT_SEQ_1_aix16fg_guint8 (source lines 507-509). -/
def chafa_term_info_emit_aix16fg (t : TermInfo) (seq v : Nat) :
    List (Nat × Char) × Nat :=
  chafa_term_info_emit_argful t seq 1 [aix16fg v]

/-- DEFINE_EMIT_SEQ_1_aix16bg_guint8 (source lines 511-513). -/
def chafa_term_info_emit_aix16bg (t : TermInfo) (seq v : Nat) :
    List (Nat × Char) × Nat :=
  chafa_term_info_emit_argful t seq 1 [aix16bg v]

/-- DEFINE_EMIT_SEQ_2_aix16fgbg_guint8 (source lines 523-525). -/
def chafa_term_info_emit_aix16fgbg (t : TermInfo) (seq a b : Nat) :
    List (Nat × Char) × Nat :=
  chafa_term_info_emit_argful t seq 2 [aix16fg a, aix16bg b]

/-- Cumulative effect of a list of write events on a buffer, applied in
program order (a later write to the same offset wins, exactly as the C
stores do). -/
def applyWrites (w : List (Nat × Char)) (b : Nat → Char) : Nat → Char :=
  w.foldl (fun f e i => if i = e.1 then e.2 else f i) b

/-- One template character of the specification-level expansion.
`pending` means the previous character was an unescaped percent. -/
def renderStep (vals : List Nat) (r : List Char × Bool) (c : Char) : List Char × Bool :=
  if r.2 then
    if c = '%' then
      (r.1 ++ ['%'], false)
    else if '1' ≤ c ∧ c ≤ '8' then
      (r.1 ++ decDigits (vals.getD (c.toNat - '1'.toNat) 0), false)
    else
      (r.1, false)
  else if c = '%' then
    (r.1, true)
  else
    (r.1 ++ [c], false)

/-- Specification-level template expansion, following the words of the
spec: literal bytes are copied verbatim, "%%" collapses to a single
percent, and each placeholder "%1".."%8" is replaced by the decimal
ASCII digits of the corresponding argument value. -/
def renderTemplate (vals : List Nat) (inp : List Char) : List Char :=
  (inp.foldl (renderStep vals) ([], false)).1

/-- The byte sequence the emit loop produces for a slot list: for each
slot its literal run (read out of the compiled row) followed by the
digits of its argument. -/
def renderSlotsBytes (row : List Char) (vals : List Nat) :
    List SeqArgInfo → Nat → List Char
  | [], _ => []
  | a :: rest, ofs =>
    rowSlice row ofs a.pre_len ++ decDigits (vals.getD a.arg_index 0)
      ++ renderSlotsBytes row vals rest (ofs + a.pre_len)

/-- Sum of the literal-run lengths of a slot list. -/
def sumPre (l : List SeqArgInfo) : Nat :=
  (l.map SeqArgInfo.pre_len).sum

/-- The byte sequence a mid-scan loop state will make the emitter
produce: the closed slots expanded against the compiled bytes so far,
followed by the current (still open) literal run. -/
def emitView (vals : List Nat) (s : LoopState) : List Char :=
  renderSlotsBytes s.out vals s.slots 0 ++ rowSlice s.out (sumPre s.slots) s.preLen

/-- Total digit count the emitter appends for a slot list. -/
def sumDig (vals : List Nat) (l : List SeqArgInfo) : Nat :=
  (l.map fun a => (decDigits (vals.getD a.arg_index 0)).length).sum

/-- Number of leading non-sentinel entries of a slot table: the number
of argument placeholders the compiled template contains. -/
def realCount : List SeqArgInfo → Nat
  | [] => 0
  | a :: r => if a.arg_index = ARG_INDEX_SENTINEL then 0 else realCount r + 1

/-- Data invariant of the scan state: `j` counts the compiled literal
bytes, `k` the closed slots, the literal runs recorded in the slots plus
the current run partition the compiled bytes, at most 8 slots exist, and
every recorded argument index is in range (and at most 7, since it came
from a digit 1..8). -/
def stInv (n : Nat) (s : LoopState) : Prop :=
  s.j = s.out.length ∧ s.k = s.slots.length ∧ sumPre s.slots + s.preLen = s.j ∧
    s.k ≤ CHAFA_TERM_SEQ_ARGS_MAX ∧
    ∀ a ∈ s.slots, a.arg_index < n ∧ a.arg_index ≤ 7

/-- Control-state invariant: a pending escape was entered under a
passing guard, and a stopped scan records that the guard failed. -/
def scanInv (n : Nat) : ScanSt → Prop
  | ScanSt.running s pending =>
    stInv n s ∧
      (pending = true → s.j < CHAFA_TERM_SEQ_LENGTH_MAX ∧ s.k < CHAFA_TERM_SEQ_ARGS_MAX)
  | ScanSt.stopped s =>
    stInv n s ∧ ¬(s.j < CHAFA_TERM_SEQ_LENGTH_MAX ∧ s.k < CHAFA_TERM_SEQ_ARGS_MAX)
  | ScanSt.failed _ => True

/-- Specification-level shape of a template: total literal byte count
(%% counted once), placeholder count, whether every placeholder index is
below the declared argument count, whether every escape is well formed,
and whether the scan ends in the middle of an escape. -/
structure TplShape where
  lit : Nat
  nSlots : Nat
  idxOk : Bool
  escOk : Bool
  pending : Bool
  deriving DecidableEq, Repr

/-- One character of the specification-level shape scan.  The counters
and the pending flag are updated independently of the validity flags. -/
def shapeStep (n : Nat) (t : TplShape) (c : Char) : TplShape :=
  if t.pending then
    if c = '%' then
      ⟨t.lit + 1, t.nSlots, t.idxOk, t.escOk, false⟩
    else if '1' ≤ c ∧ c ≤ '8' then
      ⟨t.lit, t.nSlots + 1, t.idxOk && decide (c.toNat - '1'.toNat < n), t.escOk, false⟩
    else
      ⟨t.lit, t.nSlots, t.idxOk, false, false⟩
  else if c = '%' then
    ⟨t.lit, t.nSlots, t.idxOk, t.escOk, true⟩
  else
    ⟨t.lit + 1, t.nSlots, t.idxOk, t.escOk, false⟩

/-- Shape of a whole template. -/
def tplShape (n : Nat) (inp : List Char) : TplShape :=
  inp.foldl (shapeStep n) ⟨0, 0, true, true, false⟩

/-- A template is syntactically well formed for a kind with n declared
arguments when every escape is "%%" or "%1".."%8", it does not end in
the middle of an escape, and every placeholder index is below n. -/
def templateWF (n : Nat) (inp : List Char) : Bool :=
  (tplShape n inp).escOk && !(tplShape n inp).pending && (tplShape n inp).idxOk

/-- Sum of the literal-run lengths of a template. -/
def litLen (inp : List Char) : Nat :=
  (tplShape 0 inp).lit

/-- Number of argument placeholders of a template. -/
def slotCount (inp : List Char) : Nat :=
  (tplShape 0 inp).nSlots

/-- Container validity: every stored raw-template address is a live cell
of the heap. -/
def tiWF (h : Heap) (t : TermInfo) : Bool :=
  (List.range CHAFA_TERM_SEQ_MAX).all fun k =>
    match t.unparsed_str k with
    | none => true
    | some a => decide (a < h.cells.length) && (h.get a).isSome

/-- Two containers share no raw-template address. -/
def tiDisj (t1 t2 : TermInfo) : Bool :=
  (List.range CHAFA_TERM_SEQ_MAX).all fun k1 =>
    (List.range CHAFA_TERM_SEQ_MAX).all fun k2 =>
      match t1.unparsed_str k1, t2.unparsed_str k2 with
      | some a1, some a2 => decide (a1 ≠ a2)
      | _, _ => true

/-! Generic list helpers (self-contained, proven by induction). -/

theorem listGetD_append_left {α : Type} (d : α) :
    ∀ (l1 l2 : List α) (i : Nat), i < l1.length → (l1 ++ l2).getD i d = l1.getD i d
  | [], _, i, h => absurd h (by simp)
  | _ :: _, _, 0, _ => rfl
  | _ :: l1, l2, i + 1, h => listGetD_append_left d l1 l2 i (by simpa using h)

theorem listGetD_append_cons {α : Type} (d : α) :
    ∀ (l1 : List α) (x : α) (l2 : List α), (l1 ++ x :: l2).getD l1.length d = x
  | [], _, _ => rfl
  | _ :: l1, x, l2 => listGetD_append_cons d l1 x l2

theorem listGetD_set_ne {α : Type} (d : α) :
    ∀ (l : List α) (i j : Nat) (v : α), i ≠ j → (l.set i v).getD j d = l.getD j d
  | [], _, _, _, _ => rfl
  | _ :: _, 0, 0, _, h => absurd rfl h
  | _ :: _, 0, _ + 1, _, _ => rfl
  | _ :: _, _ + 1, 0, _, _ => rfl
  | _ :: l, i + 1, j + 1, v, h =>
    listGetD_set_ne d l i j v (fun hij => h (by omega))

theorem listTake_append_self {α : Type} :
    ∀ (l1 l2 : List α), (l1 ++ l2).take l1.length = l1
  | [], _ => rfl
  | a :: l1, l2 => by simp [listTake_append_self l1 l2]

theorem listGetD_mem {α : Type} (d : α) :
    ∀ (l : List α) (i : Nat), i < l.length → l.getD i d ∈ l
  | [], i, h => absurd h (by simp)
  | a :: l, 0, _ => List.mem_cons_self a l
  | a :: l, i + 1, h =>
    List.mem_cons_of_mem a (listGetD_mem d l i (by simpa using h))

/-! Write-event helpers. -/

theorem stripeWrites_mem :
    ∀ (xs : List Char) (pos : Nat) (pc : Nat × Char), pc ∈ stripeWrites xs pos →
      pos ≤ pc.1 ∧ pc.1 < pos + xs.length
  | [], _, _, h => absurd h (by simp [stripeWrites])
  | c :: xs, pos, pc, h => by
    rcases (by simpa [stripeWrites] using h) with h1 | h1
    · subst h1; simp
    · have := stripeWrites_mem xs (pos + 1) pc h1
      constructor <;> [omega; (simp only [List.length_cons]; omega)]

theorem applyWrites_append (w1 w2 : List (Nat × Char)) (b : Nat → Char) :
    applyWrites (w1 ++ w2) b = applyWrites w2 (applyWrites w1 b) := by
  simp [applyWrites, List.foldl_append]

theorem applyWrites_notin :
    ∀ (w : List (Nat × Char)) (b : Nat → Char) (i : Nat),
      (∀ pc ∈ w, pc.1 ≠ i) → applyWrites w b i = b i
  | [], _, _, _ => rfl
  | e :: w, b, i, h => by
    have hrest := applyWrites_notin w (fun j => if j = e.1 then e.2 else b j) i
      (fun pc hpc => h pc (List.mem_cons_of_mem e hpc))
    have hne : e.1 ≠ i := h e (List.mem_cons_self e w)
    simp only [applyWrites, List.foldl_cons] at hrest ⊢
    rw [hrest, if_neg (fun hh => hne hh.symm)]

theorem applyWrites_stripe :
    ∀ (xs : List Char) (pos : Nat) (b : Nat → Char) (i : Nat), i < xs.length →
      applyWrites (stripeWrites xs pos) b (pos + i) = xs.getD i '\x00'
  | [], _, _, i, h => absurd h (by simp)
  | c :: xs, pos, b, 0, _ => by
    have hframe := applyWrites_notin (stripeWrites xs (pos + 1))
      (fun j => if j = pos then c else b j) pos
      (fun pc hpc => by have := stripeWrites_mem xs (pos + 1) pc hpc; omega)
    simp only [stripeWrites, applyWrites, List.foldl_cons] at hframe ⊢
    simpa [applyWrites] using hframe
  | c :: xs, pos, b, i + 1, h => by
    have := applyWrites_stripe xs (pos + 1) (fun j => if j = pos then c else b j) i
      (by simpa using h)
    simp only [stripeWrites, applyWrites, List.foldl_cons] at this ⊢
    have harith : pos + (i + 1) = pos + 1 + i := by omega
    rw [harith]
    simpa [applyWrites] using this

/-! rowSlice helpers. -/

theorem rowSlice_length (row : List Char) :
    ∀ (n ofs : Nat), (rowSlice row ofs n).length = n
  | 0, _ => rfl
  | n + 1, ofs => by simp [rowSlice, rowSlice_length row n (ofs + 1)]

theorem rowSlice_getD (row : List Char) (d : Char) :
    ∀ (n ofs i : Nat), i < n → (rowSlice row ofs n).getD i d = row.getD (ofs + i) '\x00'
  | 0, _, i, h => absurd h (by simp)
  | n + 1, ofs, 0, _ => by simp [rowSlice]
  | n + 1, ofs, i + 1, h => by
    have := rowSlice_getD row d n (ofs + 1) i (by omega)
    simp only [rowSlice, List.getD_cons_succ]
    rw [this]
    congr 1
    omega

theorem rowSlice_split (row : List Char) :
    ∀ (a b ofs : Nat), rowSlice row ofs (a + b) = rowSlice row ofs a ++ rowSlice row (ofs + a) b
  | 0, b, ofs => by simp [rowSlice]
  | a + 1, b, ofs => by
    have := rowSlice_split row a b (ofs + 1)
    have harith : a + 1 + b = (a + b) + 1 := by omega
    rw [harith]
    simp only [rowSlice, List.cons_append, this]
    congr 3
    omega

/-! Decimal digit helpers. -/

theorem decDigitsAux_len_ge :
    ∀ (fuel n : Nat) (acc : List Char), acc.length ≤ (decDigitsAux fuel n acc).length
  | 0, _, _ => Nat.le_refl _
  | fuel + 1, n, acc => by
    by_cases h : n < 10
    · simp [decDigitsAux, h]
    · have := decDigitsAux_len_ge fuel (n / 10) (Char.ofNat (48 + n % 10) :: acc)
      simp only [decDigitsAux, if_neg h]
      calc acc.length ≤ acc.length + 1 := by omega
        _ = (Char.ofNat (48 + n % 10) :: acc).length := by simp
        _ ≤ _ := this

theorem decDigits_len_pos (n : Nat) : 1 ≤ (decDigits n).length := by
  by_cases h : n < 10
  · simp [decDigits, decDigitsAux, h]
  · have := decDigitsAux_len_ge n (n / 10) [Char.ofNat (48 + n % 10)]
    simp only [decDigits, decDigitsAux, if_neg h]
    calc 1 = [Char.ofNat (48 + n % 10)].length := rfl
      _ ≤ _ := this

theorem decDigitsAux_len_le :
    ∀ (d fuel n : Nat) (acc : List Char), n < 10 ^ d →
      (decDigitsAux (fuel + 1) n acc).length ≤ acc.length + max 1 d
  | 0, fuel, n, acc, h => by
    have hn : n = 0 := by omega
    subst hn
    simp [decDigitsAux]
  | d + 1, fuel, n, acc, h => by
    by_cases h10 : n < 10
    · simp only [decDigitsAux, if_pos h10, List.length_cons]
      have h1 : 1 ≤ max 1 (d + 1) := le_max_left _ _
      omega
    · have hd1 : 1 ≤ d := by
        by_contra hd
        have hd0 : d = 0 := by omega
        subst hd0
        norm_num at h
        omega
      have hdiv : n / 10 < 10 ^ d := by
        rw [Nat.div_lt_iff_lt_mul (by norm_num : (0 : Nat) < 10)]
        calc n < 10 ^ (d + 1) := h
          _ = 10 ^ d * 10 := by rw [pow_succ]
      have h2 : max 1 (d + 1) = d + 1 := Nat.max_eq_right (by omega)
      match fuel with
      | 0 =>
        simp only [decDigitsAux, if_neg h10, List.length_cons]
        omega
      | fuel + 1 =>
        have ih := decDigitsAux_len_le d fuel (n / 10) (Char.ofNat (48 + n % 10) :: acc) hdiv
        simp only [decDigitsAux, if_neg h10] at ih ⊢
        simp only [List.length_cons] at ih
        have h1 : max 1 d = d := Nat.max_eq_right hd1
        omega

theorem decDigits_len_le (d n : Nat) (hd : 0 < d) (h : n < 10 ^ d) :
    (decDigits n).length ≤ d := by
  have hle := decDigitsAux_len_le d n n [] h
  have h1 : max 1 d = d := Nat.max_eq_right hd
  simp only [decDigits]
  simp only [List.length_nil, Nat.zero_add] at hle
  omega

/-! Sum helpers. -/

theorem sumPre_nil : sumPre [] = 0 := rfl

theorem sumPre_cons (a : SeqArgInfo) (l : List SeqArgInfo) :
    sumPre (a :: l) = a.pre_len + sumPre l := by
  simp [sumPre]

theorem sumPre_append_single (l : List SeqArgInfo) (a : SeqArgInfo) :
    sumPre (l ++ [a]) = sumPre l + a.pre_len := by
  simp [sumPre]

theorem sumDig_cons (vals : List Nat) (a : SeqArgInfo) (l : List SeqArgInfo) :
    sumDig vals (a :: l) = (decDigits (vals.getD a.arg_index 0)).length + sumDig vals l := by
  simp [sumDig]

/-- Characters between '1' and '8' have codepoints between 49 and 56. -/
theorem char_digit_range {c : Char} (h1 : '1' ≤ c) (h8 : c ≤ '8') :
    49 ≤ c.toNat ∧ c.toNat ≤ 56 := by
  rcases c with ⟨⟨v, hv⟩, hvalid⟩
  simp only [Char.le_def] at h1 h8
  simp only [Char.toNat, UInt32.toNat]
  exact ⟨h1, h8⟩

/-! Scan-loop invariant preservation. -/

theorem scanStep_inv (n : Nat) (st : ScanSt) (c : Char) (h : scanInv n st) :
    scanInv n (scanStep n st c) := by
  cases st with
  | failed e => simp [scanStep, scanInv]
  | stopped s => simpa [scanStep, scanInv] using h
  | running s pending =>
    obtain ⟨⟨hj, hk, hsum, hk8, hidx⟩, hpend⟩ := h
    cases pending with
    | false =>
      simp only [scanStep, Bool.false_eq_true, if_false]
      by_cases hg : s.j < CHAFA_TERM_SEQ_LENGTH_MAX ∧ s.k < CHAFA_TERM_SEQ_ARGS_MAX
      · rw [if_pos hg]
        by_cases hc : c = '%'
        · rw [if_pos hc]
          exact ⟨⟨hj, hk, hsum, hk8, hidx⟩, fun _ => hg⟩
        · rw [if_neg hc]
          refine ⟨⟨by simp [hj], hk, ?_, hk8, hidx⟩, by simp⟩
          show sumPre s.slots + (s.preLen + 1) = s.j + 1
          omega
      · rw [if_neg hg]
        exact ⟨⟨hj, hk, hsum, hk8, hidx⟩, hg⟩
    | true =>
      obtain ⟨hjlt, hklt⟩ := hpend rfl
      simp only [scanStep, if_pos rfl]
      by_cases hc : c = '%'
      · rw [if_pos hc]
        refine ⟨⟨by simp [hj], hk, ?_, hk8, hidx⟩, by simp⟩
        show sumPre s.slots + (s.preLen + 1) = s.j + 1
        omega
      · rw [if_neg hc]
        by_cases hd : '1' ≤ c ∧ c ≤ '8'
        · rw [if_pos hd]
          by_cases hn : n ≤ c.toNat - '1'.toNat
          · rw [if_pos hn]
            simp [scanInv]
          · rw [if_neg hn]
            have hc8 := char_digit_range hd.1 hd.2
            have h49 : ('1').toNat = 49 := rfl
            refine ⟨⟨hj, by simp [hk], ?_, Nat.succ_le_of_lt hklt, ?_⟩, by simp⟩
            · rw [sumPre_append_single]
              show sumPre s.slots + s.preLen + 0 = s.j
              omega
            · intro a ha
              rcases List.mem_append.mp ha with ha | ha
              · exact hidx a ha
              · rcases List.mem_singleton.mp ha with rfl
                refine ⟨?_, ?_⟩
                · show c.toNat - '1'.toNat < n
                  omega
                · show c.toNat - '1'.toNat ≤ 7
                  omega
        · rw [if_neg hd]
          simp [scanInv]

theorem scanTemplate_inv (n : Nat) :
    ∀ (inp : List Char) (st : ScanSt), scanInv n st → scanInv n (scanTemplate n inp st)
  | [], _, h => h
  | c :: rest, st, h =>
    scanTemplate_inv n rest (scanStep n st c) (scanStep_inv n st c h)

/-- Inversion of a successful parse: the compiled output comes from a
final loop state that satisfies the data invariant, all 8 slots were not
consumed, and the worst-case length check passed. -/
theorem parse_ok_elim {inp : List Char} {n alm : Nat} {out : List Char}
    {slots8 : List SeqArgInfo}
    (h : parse_seq_args inp n alm = Except.ok (out, slots8)) :
    ∃ s : LoopState,
      out = s.out ∧
      slots8 = s.slots ++ ⟨s.preLen, ARG_INDEX_SENTINEL⟩ ::
        List.replicate (CHAFA_TERM_SEQ_ARGS_MAX - 1 - s.k) ⟨0, ARG_INDEX_SENTINEL⟩ ∧
      s.k ≠ CHAFA_TERM_SEQ_ARGS_MAX ∧
      s.j + s.k * alm + 1 ≤ CHAFA_TERM_SEQ_LENGTH_MAX ∧ stInv n s ∧
      scanTemplate n inp (ScanSt.running ⟨[], [], 0, 0, 0⟩ false) =
        ScanSt.running s false := by
  have hinv0 : scanInv n (ScanSt.running ⟨[], [], 0, 0, 0⟩ false) := by
    refine ⟨⟨rfl, rfl, rfl, by simp, by simp⟩, by simp⟩
  have hinv := scanTemplate_inv n inp _ hinv0
  unfold parse_seq_args at h
  cases hst : scanTemplate n inp (ScanSt.running ⟨[], [], 0, 0, 0⟩ false) with
  | failed e => rw [hst] at h; simp [finishScan] at h
  | stopped s =>
    rw [hst] at hinv
    rw [hst] at h
    simp only [finishScan] at h
    simp only [scanInv, stInv] at hinv
    obtain ⟨⟨-, -, -, hkle, -⟩, hguard⟩ := hinv
    by_cases hk : s.k = CHAFA_TERM_SEQ_ARGS_MAX
    · rw [if_pos hk] at h; simp at h
    · rw [if_neg hk] at h
      by_cases hlen : CHAFA_TERM_SEQ_LENGTH_MAX < s.j + s.k * alm + 1
      · rw [if_pos hlen] at h; simp at h
      · exact absurd ⟨by omega, by omega⟩ hguard
  | running s pending =>
    rw [hst] at hinv
    rw [hst] at h
    cases pending with
    | true => simp [finishScan] at h
    | false =>
      simp only [finishScan] at h
      refine ⟨s, ?_⟩
      by_cases hk : s.k = CHAFA_TERM_SEQ_ARGS_MAX
      · rw [if_pos hk] at h; simp at h
      · rw [if_neg hk] at h
        by_cases hlen : CHAFA_TERM_SEQ_LENGTH_MAX < s.j + s.k * alm + 1
        · rw [if_pos hlen] at h; simp at h
        · rw [if_neg hlen] at h
          simp only [Except.ok.injEq, Prod.mk.injEq] at h
          exact ⟨h.1.symm, h.2.symm, hk, by omega, hinv.1, rfl⟩

/-! Emit-loop bookkeeping. -/

theorem emitArgSlots_cursor (row : List Char) (vals : List Nat) :
    ∀ (slots : List SeqArgInfo) (pos ofs : Nat),
      (emitArgSlots row vals slots pos ofs).2.1 = pos + sumPre slots + sumDig vals slots ∧
      (emitArgSlots row vals slots pos ofs).2.2 = ofs + sumPre slots
  | [], pos, ofs => by simp [emitArgSlots, sumPre, sumDig]
  | a :: rest, pos, ofs => by
    have ih := emitArgSlots_cursor row vals rest
      (pos + a.pre_len + (decDigits (vals.getD a.arg_index 0)).length) (ofs + a.pre_len)
    simp only [emitArgSlots]
    rw [sumPre_cons, sumDig_cons]
    exact ⟨by rw [ih.1]; omega, by rw [ih.2]; omega⟩

theorem emitArgSlots_mem (row : List Char) (vals : List Nat) :
    ∀ (slots : List SeqArgInfo) (pos ofs : Nat) (pc : Nat × Char),
      pc ∈ (emitArgSlots row vals slots pos ofs).1 →
      pos ≤ pc.1 ∧ pc.1 < (emitArgSlots row vals slots pos ofs).2.1
  | [], _, _, _, h => absurd h (by simp [emitArgSlots])
  | a :: rest, pos, ofs, pc, h => by
    have hcur := emitArgSlots_cursor row vals (a :: rest) pos ofs
    have hcur' := emitArgSlots_cursor row vals rest
      (pos + a.pre_len + (decDigits (vals.getD a.arg_index 0)).length) (ofs + a.pre_len)
    have hd1 : 1 ≤ (decDigits (vals.getD a.arg_index 0)).length := decDigits_len_pos _
    simp only [emitArgSlots, List.mem_append] at h
    rw [hcur.1, sumPre_cons, sumDig_cons]
    rcases h with h | h | h
    · have hm := stripeWrites_mem _ _ _ h
      rw [rowSlice_length] at hm
      omega
    · have hm := stripeWrites_mem _ _ _ h
      omega
    · have hm := emitArgSlots_mem row vals rest
        (pos + a.pre_len + (decDigits (vals.getD a.arg_index 0)).length) (ofs + a.pre_len) pc h
      rw [hcur'.1] at hm
      omega

theorem sumDig_le_of_bounded (vals : List Nat) (alm : Nat)
    (hvals : ∀ v ∈ vals, (decDigits v).length ≤ alm) :
    ∀ (slots : List SeqArgInfo), (∀ a ∈ slots, a.arg_index < vals.length) →
      sumDig vals slots ≤ slots.length * alm
  | [], _ => by simp [sumDig]
  | a :: rest, h => by
    have hmem : vals.getD a.arg_index 0 ∈ vals :=
      listGetD_mem 0 vals a.arg_index (h a (List.mem_cons_self a rest))
    have hih := sumDig_le_of_bounded vals alm hvals rest
      (fun b hb => h b (List.mem_cons_of_mem a hb))
    rw [sumDig_cons]
    have := hvals _ hmem
    calc (decDigits (vals.getD a.arg_index 0)).length + sumDig vals rest
        ≤ alm + rest.length * alm := by omega
      _ = (a :: rest).length * alm := by simp [List.length_cons]; ring

theorem realCount_append_sentinel :
    ∀ (l : List SeqArgInfo), (∀ a ∈ l, a.arg_index ≤ 7) →
      ∀ (p : Nat) (r : List SeqArgInfo),
        realCount (l ++ ⟨p, ARG_INDEX_SENTINEL⟩ :: r) = l.length
  | [], _, p, r => by simp [realCount]
  | a :: l, h, p, r => by
    have ha := h a (List.mem_cons_self a l)
    have hne : a.arg_index ≠ ARG_INDEX_SENTINEL := by
      intro hh
      rw [hh] at ha
      simp [ARG_INDEX_SENTINEL] at ha
    simp only [List.cons_append, realCount, if_neg hne, List.length_cons]
    show realCount (l ++ ⟨p, ARG_INDEX_SENTINEL⟩ :: r) + 1 = l.length + 1
    rw [realCount_append_sentinel l (fun b hb => h b (List.mem_cons_of_mem a hb)) p r]

theorem nat_max_one_le (a : Nat) : max a 1 ≤ a + 1 :=
  max_le (by omega) (by omega)

theorem listTake_append_le {α : Type} :
    ∀ (l1 l2 : List α) (n : Nat), n ≤ l1.length → (l1 ++ l2).take n = l1.take n
  | _, _, 0, _ => by simp
  | [], _, n + 1, h => by simp at h
  | a :: l1, l2, n + 1, h => by
    simp only [List.cons_append, List.take_succ_cons]
    rw [listTake_append_le l1 l2 n (by simpa using h)]

theorem sumPre_take_getD :
    ∀ (l : List SeqArgInfo) (n : Nat), n < l.length →
      sumPre (l.take n) + (l.getD n ⟨0, ARG_INDEX_SENTINEL⟩).pre_len ≤ sumPre l
  | [], _, h => absurd h (by simp)
  | a :: r, 0, _ => by
    show sumPre [] + a.pre_len ≤ sumPre (a :: r)
    rw [sumPre_nil, sumPre_cons]
    omega
  | a :: r, n + 1, h => by
    have ih := sumPre_take_getD r n (by simpa using h)
    show sumPre (a :: r.take n) + (r.getD n ⟨0, ARG_INDEX_SENTINEL⟩).pre_len ≤
      sumPre (a :: r)
    rw [sumPre_cons, sumPre_cons]
    omega

/-- C1 (amended): for every template accepted by the compiler that
contains at least the kind's declared number of argument placeholders
(repeated indices make more placeholders than declared arguments
possible), and every in-range argument tuple, every byte the emitter
writes lands strictly below offset CHAFA_TERM_SEQ_LENGTH_MAX past the
cursor and the returned cursor advance leaves at least the one reserved
slack byte — for the argument-taking emit path and for the 0-argument
path alike, whatever the stored literal row contains.  Only templates
with fewer placeholders than declared arguments (where the emit loop
walks onto the sentinel slot) break the bound. -/
theorem C1_amended_bound (inp out : List Char) (slots8 : List SeqArgInfo)
    (n alm : Nat) (vals : List Nat) (row : List Char)
    (hp : parse_seq_args inp n alm = Except.ok (out, slots8))
    (hfull : n ≤ realCount slots8)
    (hlen : vals.length = n)
    (halm : 0 < alm)
    (hv : ∀ v ∈ vals, v < 10 ^ alm) :
    (∀ pc ∈ (emit_seq row slots8 n vals).1, pc.1 < CHAFA_TERM_SEQ_LENGTH_MAX) ∧
    (emit_seq row slots8 n vals).2 + 1 ≤ CHAFA_TERM_SEQ_LENGTH_MAX ∧
    (∀ pc ∈ (emit_seq_0_args row slots8).1, pc.1 < CHAFA_TERM_SEQ_LENGTH_MAX) ∧
    (emit_seq_0_args row slots8).2 + 1 ≤ CHAFA_TERM_SEQ_LENGTH_MAX := by
  obtain ⟨s, hout, hsl, hk8, hchk, hinv, -⟩ := parse_ok_elim hp
  simp only [stInv] at hinv
  obtain ⟨hji, hki, hsum, hkle, hidx⟩ := hinv
  have hidx7 : ∀ a ∈ s.slots, a.arg_index ≤ 7 := fun a ha => (hidx a ha).2
  have hn : n ≤ s.slots.length := by
    rw [hsl, realCount_append_sentinel s.slots hidx7] at hfull
    exact hfull
  have hdig : ∀ v ∈ vals, (decDigits v).length ≤ alm :=
    fun v hvm => decDigits_len_le alm v halm (hv v hvm)
  have hsdT : sumDig vals (s.slots.take n) ≤ n * alm := by
    have hb := sumDig_le_of_bounded vals alm hdig (s.slots.take n)
      (fun a ha => by
        rw [hlen]
        exact (hidx a (List.take_subset n s.slots ha)).1)
    have hlt : (s.slots.take n).length = n := by
      rw [List.length_take]
      omega
    rw [hlt] at hb
    exact hb
  -- the 0-argument entry point: its run length is bounded by j
  have hpre0 : (slots8.headD ⟨0, ARG_INDEX_SENTINEL⟩).pre_len ≤ s.j := by
    rcases hslots : s.slots with _ | ⟨a, rest⟩
    · rw [hsl, hslots]
      simp only [List.nil_append, List.headD_cons]
      rw [hslots, sumPre_nil] at hsum
      show s.preLen ≤ s.j
      omega
    · rw [hsl, hslots]
      simp only [List.cons_append, List.headD_cons]
      rw [hslots, sumPre_cons] at hsum
      omega
  have hemit0 :
      (∀ pc ∈ (emit_seq_0_args row slots8).1, pc.1 < CHAFA_TERM_SEQ_LENGTH_MAX) ∧
      (emit_seq_0_args row slots8).2 + 1 ≤ CHAFA_TERM_SEQ_LENGTH_MAX := by
    constructor
    · intro pc hpc
      simp only [emit_seq_0_args] at hpc
      have hm := stripeWrites_mem _ _ _ hpc
      rw [rowSlice_length] at hm
      have hx := nat_max_one_le (slots8.headD ⟨0, ARG_INDEX_SENTINEL⟩).pre_len
      omega
    · simp only [emit_seq_0_args]
      omega
  rcases hslots : s.slots with _ | ⟨a, rest⟩
  · -- no placeholders at all: slot 0 is the sentinel and emit_seq is a no-op
    have hhead : (slots8.headD ⟨0, 0⟩).arg_index = ARG_INDEX_SENTINEL := by
      rw [hsl, hslots]
      simp
    have hes : emit_seq row slots8 n vals = ([], 0) := by
      simp only [emit_seq, if_pos hhead]
    rw [hes]
    refine ⟨by simp, by omega, hemit0.1, hemit0.2⟩
  · -- at least one placeholder: the loop runs over the first n real slots
    have hhead : ¬(slots8.headD ⟨0, 0⟩).arg_index = ARG_INDEX_SENTINEL := by
      rw [hsl, hslots]
      simp only [List.cons_append, List.headD_cons]
      have := hidx7 a (by rw [hslots]; exact List.mem_cons_self a rest)
      simp only [ARG_INDEX_SENTINEL]
      omega
    have htake : slots8.take n = s.slots.take n := by
      rw [hsl]
      exact listTake_append_le s.slots _ n hn
    have hcur := emitArgSlots_cursor row vals (s.slots.take n) 0 0
    have hfin : sumPre (s.slots.take n) +
        (slots8.getD n ⟨0, ARG_INDEX_SENTINEL⟩).pre_len ≤ s.j := by
      by_cases hnk : n < s.slots.length
      · have hgd : slots8.getD n ⟨0, ARG_INDEX_SENTINEL⟩ =
            s.slots.getD n ⟨0, ARG_INDEX_SENTINEL⟩ := by
          rw [hsl]
          exact listGetD_append_left _ _ _ n hnk
        rw [hgd]
        have := sumPre_take_getD s.slots n hnk
        omega
      · have hne : n = s.slots.length := by omega
        have htk : s.slots.take n = s.slots := by
          rw [hne]
          exact List.take_length s.slots
        have hgd : slots8.getD n ⟨0, ARG_INDEX_SENTINEL⟩ =
            ⟨s.preLen, ARG_INDEX_SENTINEL⟩ := by
          rw [hsl, hne]
          exact listGetD_append_cons _ s.slots _ _
        rw [htk, hgd]
        show sumPre s.slots + s.preLen ≤ s.j
        omega
    have hmul : n * alm ≤ s.k * alm := Nat.mul_le_mul_right alm (by omega)
    refine ⟨?_, ?_, hemit0.1, hemit0.2⟩
    · intro pc hpc
      simp only [emit_seq, if_neg hhead, htake, List.mem_append] at hpc
      rcases hpc with hpc | hpc
      · have hm := emitArgSlots_mem row vals (s.slots.take n) 0 0 pc hpc
        rw [hcur.1] at hm
        omega
      · have hm := stripeWrites_mem _ _ _ hpc
        rw [rowSlice_length] at hm
        rw [hcur.1] at hm
        have hx := nat_max_one_le (slots8.getD n ⟨0, ARG_INDEX_SENTINEL⟩).pre_len
        show pc.1 < CHAFA_TERM_SEQ_LENGTH_MAX
        omega
    · simp only [emit_seq, if_neg hhead, htake]
      show (emitArgSlots row vals (s.slots.take n) 0 0).2.1 +
          (slots8.getD n ⟨0, ARG_INDEX_SENTINEL⟩).pre_len + 1 ≤ CHAFA_TERM_SEQ_LENGTH_MAX
      rw [hcur.1]
      omega

set_option maxHeartbeats 1000000 in
/-- C1: the claim as stated is false on the code.  The template of 91
letters followed by "%1" is accepted for a kind declaring 2 wide
arguments (91 + 1*4 + 1 = 96 fits), the argument tuple (9999, 0) is in
range, yet the emit loop runs over n_args = 2 slot-table entries, treats
the sentinel slot as a real argument slot, and performs a write at
offset 96 past the cursor — one byte beyond the
CHAFA_TERM_SEQ_LENGTH_MAX = 96 bytes of guaranteed free space. -/
theorem C1_counterexample :
    (chafa_term_info_set_seq ⟨[]⟩ chafa_term_info_new 0 ⟨2, 4⟩
        (some (List.replicate 91 'A' ++ ['%', '1']))).1 = true ∧
    96 ∈ ((chafa_term_info_emit_argful
        (chafa_term_info_set_seq ⟨[]⟩ chafa_term_info_new 0 ⟨2, 4⟩
          (some (List.replicate 91 'A' ++ ['%', '1']))).2.2.2 0 2 [9999, 0]).1.map
            Prod.fst) :=
  ⟨by decide, by decide⟩

set_option maxHeartbeats 400000 in
/-- C1 witness: the amended bound instantiated on the two-argument CSI
color template with arguments (31, 1), and on the repeated-placeholder
template "a%1b%1c" for a 1-argument kind, whose two placeholders exceed
the declared count yet satisfy the bound. -/
theorem C1_amended_bound_witness :
    (emit_seq (List.replicate 96 '\x00')
        [⟨2, 0⟩, ⟨1, 1⟩, ⟨1, 255⟩, ⟨0, 255⟩, ⟨0, 255⟩, ⟨0, 255⟩, ⟨0, 255⟩, ⟨0, 255⟩]
        2 [31, 1]).2 + 1 ≤ CHAFA_TERM_SEQ_LENGTH_MAX ∧
    (emit_seq (List.replicate 96 '\x00')
        [⟨1, 0⟩, ⟨1, 0⟩, ⟨1, 255⟩, ⟨0, 255⟩, ⟨0, 255⟩, ⟨0, 255⟩, ⟨0, 255⟩, ⟨0, 255⟩]
        1 [5]).2 + 1 ≤ CHAFA_TERM_SEQ_LENGTH_MAX :=
  ⟨(C1_amended_bound ['\x1b', '[', '%', '1', ';', '%', '2', 'm'] ['\x1b', '[', ';', 'm']
      [⟨2, 0⟩, ⟨1, 1⟩, ⟨1, 255⟩, ⟨0, 255⟩, ⟨0, 255⟩, ⟨0, 255⟩, ⟨0, 255⟩, ⟨0, 255⟩]
      2 4 [31, 1] (List.replicate 96 '\x00') (by decide) (by decide) rfl (by decide)
      (by decide)).2.1,
   (C1_amended_bound ['a', '%', '1', 'b', '%', '1', 'c'] ['a', 'b', 'c']
      [⟨1, 0⟩, ⟨1, 0⟩, ⟨1, 255⟩, ⟨0, 255⟩, ⟨0, 255⟩, ⟨0, 255⟩, ⟨0, 255⟩, ⟨0, 255⟩]
      1 4 [5] (List.replicate 96 '\x00') (by decide) (by decide) rfl (by decide)
      (by decide)).2.1⟩

/-! Content lemmas for the C2 refinement. -/

theorem listGetD_append_right {α : Type} (d : α) :
    ∀ (l1 l2 : List α) (m : Nat), (l1 ++ l2).getD (l1.length + m) d = l2.getD m d
  | [], _, _ => by simp
  | a :: l1, l2, m => by
    have := listGetD_append_right d l1 l2 m
    simpa [Nat.succ_add] using this

theorem rowSlice_congr (row2 row1 : List Char) :
    ∀ (n ofs : Nat), (∀ i, i < n → row2.getD (ofs + i) '\x00' = row1.getD (ofs + i) '\x00') →
      rowSlice row2 ofs n = rowSlice row1 ofs n
  | 0, _, _ => rfl
  | n + 1, ofs, h => by
    simp only [rowSlice]
    have h0 : row2.getD ofs '\x00' = row1.getD ofs '\x00' := by
      simpa using h 0 (by omega)
    have ht : rowSlice row2 (ofs + 1) n = rowSlice row1 (ofs + 1) n := by
      refine rowSlice_congr row2 row1 n (ofs + 1) (fun i hi => ?_)
      have h2 := h (i + 1) (by omega)
      have harith : ofs + (i + 1) = ofs + 1 + i := by omega
      rw [harith] at h2
      exact h2
    rw [h0, ht]

theorem rowSlice_one (row : List Char) (ofs : Nat) :
    rowSlice row ofs 1 = [row.getD ofs '\x00'] := rfl

theorem rowSlice_shifted :
    ∀ (l2 l1 : List Char), rowSlice (l1 ++ l2) l1.length l2.length = l2
  | [], l1 => rfl
  | c :: l2, l1 => by
    simp only [rowSlice, List.length_cons]
    have h0 : (l1 ++ c :: l2).getD l1.length '\x00' = c :=
      listGetD_append_cons '\x00' l1 c l2
    have ht : rowSlice (l1 ++ c :: l2) (l1.length + 1) l2.length = l2 := by
      have := rowSlice_shifted l2 (l1 ++ [c])
      simp only [List.length_append, List.length_cons, List.length_nil] at this
      calc rowSlice (l1 ++ c :: l2) (l1.length + 1) l2.length
          = rowSlice ((l1 ++ [c]) ++ l2) (l1.length + 1) l2.length := by
            simp
        _ = l2 := by simpa using this
    rw [h0, ht]

theorem rowSlice_self (l : List Char) : rowSlice l 0 l.length = l := by
  have := rowSlice_shifted l []
  simpa using this

theorem renderSlotsBytes_length (row : List Char) (vals : List Nat) :
    ∀ (slots : List SeqArgInfo) (ofs : Nat),
      (renderSlotsBytes row vals slots ofs).length = sumPre slots + sumDig vals slots
  | [], _ => by simp [renderSlotsBytes, sumPre, sumDig]
  | a :: rest, ofs => by
    have := renderSlotsBytes_length row vals rest (ofs + a.pre_len)
    simp only [renderSlotsBytes, List.length_append, rowSlice_length, this,
      sumPre_cons, sumDig_cons]
    omega

theorem renderSlotsBytes_congr (row2 row1 : List Char) (vals : List Nat) :
    ∀ (slots : List SeqArgInfo) (ofs : Nat),
      (∀ i, i < sumPre slots → row2.getD (ofs + i) '\x00' = row1.getD (ofs + i) '\x00') →
      renderSlotsBytes row2 vals slots ofs = renderSlotsBytes row1 vals slots ofs
  | [], _, _ => rfl
  | a :: rest, ofs, h => by
    simp only [renderSlotsBytes]
    have hpre : rowSlice row2 ofs a.pre_len = rowSlice row1 ofs a.pre_len := by
      refine rowSlice_congr row2 row1 a.pre_len ofs (fun i hi => h i ?_)
      rw [sumPre_cons]
      omega
    have hrest := renderSlotsBytes_congr row2 row1 vals rest (ofs + a.pre_len)
      (fun i hi => by
        have := h (a.pre_len + i) (by rw [sumPre_cons]; omega)
        simpa [Nat.add_assoc] using this)
    rw [hpre, hrest]

theorem renderSlotsBytes_snoc (row : List Char) (vals : List Nat) :
    ∀ (slots : List SeqArgInfo) (a : SeqArgInfo) (ofs : Nat),
      renderSlotsBytes row vals (slots ++ [a]) ofs =
        renderSlotsBytes row vals slots ofs ++
          (rowSlice row (ofs + sumPre slots) a.pre_len ++
            decDigits (vals.getD a.arg_index 0))
  | [], a, ofs => by
    simp [renderSlotsBytes, sumPre]
  | b :: rest, a, ofs => by
    have ih := renderSlotsBytes_snoc row vals rest a (ofs + b.pre_len)
    have harith : ofs + b.pre_len + sumPre rest = ofs + (b.pre_len + sumPre rest) := by
      omega
    rw [harith] at ih
    simp only [List.cons_append, renderSlotsBytes, List.append_eq]
    rw [ih]
    simp only [sumPre_cons, List.append_assoc]

theorem scanTemplate_failed (n : Nat) (e : ParseError) :
    ∀ (inp : List Char), scanTemplate n inp (ScanSt.failed e) = ScanSt.failed e
  | [] => rfl
  | _ :: rest => scanTemplate_failed n e rest

theorem scanTemplate_stopped (n : Nat) (s : LoopState) :
    ∀ (inp : List Char), scanTemplate n inp (ScanSt.stopped s) = ScanSt.stopped s
  | [] => rfl
  | _ :: rest => scanTemplate_stopped n s rest

theorem emitView_append_lit (vals : List Nat) (s : LoopState) (c : Char)
    (hj : s.j = s.out.length) (hsum : sumPre s.slots + s.preLen = s.j) :
    emitView vals ⟨s.out ++ [c], s.slots, s.j + 1, s.k, s.preLen + 1⟩ =
      emitView vals s ++ [c] := by
  simp only [emitView]
  have hslots : renderSlotsBytes (s.out ++ [c]) vals s.slots 0 =
      renderSlotsBytes s.out vals s.slots 0 := by
    refine renderSlotsBytes_congr _ _ vals s.slots 0 (fun i hi => ?_)
    exact listGetD_append_left '\x00' s.out [c] (0 + i) (by omega)
  have hsplit : rowSlice (s.out ++ [c]) (sumPre s.slots) (s.preLen + 1) =
      rowSlice (s.out ++ [c]) (sumPre s.slots) s.preLen ++
        rowSlice (s.out ++ [c]) (sumPre s.slots + s.preLen) 1 :=
    rowSlice_split (s.out ++ [c]) s.preLen 1 (sumPre s.slots)
  have hrun : rowSlice (s.out ++ [c]) (sumPre s.slots) s.preLen =
      rowSlice s.out (sumPre s.slots) s.preLen := by
    refine rowSlice_congr _ _ s.preLen (sumPre s.slots) (fun i hi => ?_)
    exact listGetD_append_left '\x00' s.out [c] (sumPre s.slots + i) (by omega)
  have hlast : rowSlice (s.out ++ [c]) (sumPre s.slots + s.preLen) 1 = [c] := by
    rw [rowSlice_one]
    have : (s.out ++ [c]).getD (sumPre s.slots + s.preLen) '\x00' = c := by
      have := listGetD_append_cons '\x00' s.out c []
      rw [hsum, hj]
      exact this
    rw [this]
  rw [hslots, hsplit, hrun, hlast, List.append_assoc]

theorem emitView_close_slot (vals : List Nat) (s : LoopState) (idx : Nat) :
    emitView vals ⟨s.out, s.slots ++ [⟨s.preLen, idx⟩], s.j, s.k + 1, 0⟩ =
      emitView vals s ++ decDigits (vals.getD idx 0) := by
  simp only [emitView]
  rw [renderSlotsBytes_snoc]
  simp only [rowSlice, List.append_nil, Nat.zero_add, List.append_assoc]

/-- Lockstep refinement: running the scan from a mid-state and the
specification-level renderer from the corresponding view agree, so the
compiled form of an accepted template expands byte-for-byte to the
rendering of the template. -/
theorem scan_render (n : Nat) (vals : List Nat) :
    ∀ (inp : List Char) (s : LoopState) (p : Bool) (s' : LoopState),
      scanTemplate n inp (ScanSt.running s p) = ScanSt.running s' false →
      scanInv n (ScanSt.running s p) →
      (inp.foldl (renderStep vals) (emitView vals s, p)).1 = emitView vals s'
  | [], s, p, s', hscan, _ => by
    simp only [scanTemplate, List.foldl_nil] at hscan
    injection hscan with h1 h2
    subst h1
    subst h2
    rfl
  | c :: rest, s, p, s', hscan, hinv => by
    simp only [scanInv, stInv] at hinv
    obtain ⟨⟨hj, hk, hsum, hk8, hidx⟩, hpend⟩ := hinv
    have hunfold : scanTemplate n (c :: rest) (ScanSt.running s p) =
        scanTemplate n rest (scanStep n (ScanSt.running s p) c) := rfl
    rw [hunfold] at hscan
    have hfold : (List.foldl (renderStep vals) (emitView vals s, p) (c :: rest)).1 =
        (List.foldl (renderStep vals) (renderStep vals (emitView vals s, p) c) rest).1 :=
      rfl
    rw [hfold]
    cases p with
    | true =>
      obtain ⟨hjlt, hklt⟩ := hpend rfl
      by_cases hc : c = '%'
      · have hs2 : scanStep n (ScanSt.running s true) c =
            ScanSt.running ⟨s.out ++ ['%'], s.slots, s.j + 1, s.k, s.preLen + 1⟩ false := by
          simp [scanStep, hc]
        rw [hs2] at hscan
        have hinv2 : scanInv n
            (ScanSt.running ⟨s.out ++ ['%'], s.slots, s.j + 1, s.k, s.preLen + 1⟩ false) := by
          have hstep := scanStep_inv n (ScanSt.running s true) c
            ⟨⟨hj, hk, hsum, hk8, hidx⟩, fun _ => ⟨hjlt, hklt⟩⟩
          rwa [hs2] at hstep
        have hrs : renderStep vals (emitView vals s, true) c = (emitView vals s ++ ['%'], false) := by
          simp [renderStep, hc]
        rw [hrs]
        have ih := scan_render n vals rest _ false s' hscan hinv2
        rw [emitView_append_lit vals s '%' hj hsum] at ih
        exact ih
      · by_cases hd : '1' ≤ c ∧ c ≤ '8'
        · by_cases hn : n ≤ c.toNat - '1'.toNat
          · have hn' : n ≤ c.toNat - 49 := hn
            have hs2 : scanStep n (ScanSt.running s true) c =
                ScanSt.failed ParseError.badArguments := by
              simp [scanStep, hc, hd, hn']
            rw [hs2, scanTemplate_failed] at hscan
            simp at hscan
          · have hn' : ¬n ≤ c.toNat - 49 := hn
            have hs2 : scanStep n (ScanSt.running s true) c =
                ScanSt.running
                  ⟨s.out, s.slots ++ [⟨s.preLen, c.toNat - '1'.toNat⟩], s.j, s.k + 1, 0⟩
                  false := by
              simp [scanStep, hc, hd, hn']
            rw [hs2] at hscan
            have hinv2 : scanInv n
                (ScanSt.running
                  ⟨s.out, s.slots ++ [⟨s.preLen, c.toNat - '1'.toNat⟩], s.j, s.k + 1, 0⟩
                  false) := by
              have hstep := scanStep_inv n (ScanSt.running s true) c
                ⟨⟨hj, hk, hsum, hk8, hidx⟩, fun _ => ⟨hjlt, hklt⟩⟩
              rwa [hs2] at hstep
            have hrs : renderStep vals (emitView vals s, true) c =
                (emitView vals s ++ decDigits (vals.getD (c.toNat - '1'.toNat) 0), false) := by
              simp [renderStep, hc, hd]
            rw [hrs]
            have ih := scan_render n vals rest _ false s' hscan hinv2
            rw [emitView_close_slot vals s (c.toNat - '1'.toNat)] at ih
            exact ih
        · have hs2 : scanStep n (ScanSt.running s true) c =
              ScanSt.failed ParseError.badEscape := by
            simp [scanStep, hc, hd]
          rw [hs2, scanTemplate_failed] at hscan
          simp at hscan
    | false =>
      by_cases hg : s.j < CHAFA_TERM_SEQ_LENGTH_MAX ∧ s.k < CHAFA_TERM_SEQ_ARGS_MAX
      · by_cases hc : c = '%'
        · have hs2 : scanStep n (ScanSt.running s false) c = ScanSt.running s true := by
            simp [scanStep, hg, hc]
          rw [hs2] at hscan
          have hinv2 : scanInv n (ScanSt.running s true) :=
            ⟨⟨hj, hk, hsum, hk8, hidx⟩, fun _ => hg⟩
          have hrs : renderStep vals (emitView vals s, false) c = (emitView vals s, true) := by
            simp [renderStep, hc]
          rw [hrs]
          exact scan_render n vals rest s true s' hscan hinv2
        · have hs2 : scanStep n (ScanSt.running s false) c =
              ScanSt.running ⟨s.out ++ [c], s.slots, s.j + 1, s.k, s.preLen + 1⟩ false := by
            simp [scanStep, hg, hc]
          rw [hs2] at hscan
          have hinv2 : scanInv n
              (ScanSt.running ⟨s.out ++ [c], s.slots, s.j + 1, s.k, s.preLen + 1⟩ false) := by
            have hstep := scanStep_inv n (ScanSt.running s false) c
              ⟨⟨hj, hk, hsum, hk8, hidx⟩, by simp⟩
            rwa [hs2] at hstep
          have hrs : renderStep vals (emitView vals s, false) c =
              (emitView vals s ++ [c], false) := by
            simp [renderStep, hc]
          rw [hrs]
          have ih := scan_render n vals rest _ false s' hscan hinv2
          rw [emitView_append_lit vals s c hj hsum] at ih
          exact ih
      · have hs2 : scanStep n (ScanSt.running s false) c = ScanSt.stopped s := by
          simp [scanStep, hg]
        rw [hs2, scanTemplate_stopped] at hscan
        simp at hscan

theorem listGetD_append_sub {α : Type} (d : α) (l1 l2 : List α) (i : Nat)
    (h : l1.length ≤ i) : (l1 ++ l2).getD i d = l2.getD (i - l1.length) d := by
  obtain ⟨m, rfl⟩ : ∃ m, i = l1.length + m := ⟨i - l1.length, by omega⟩
  rw [listGetD_append_right]
  congr 1
  omega

theorem applyWrites_stripe_sub (xs : List Char) (pos : Nat) (b : Nat → Char) (q : Nat)
    (h1 : pos ≤ q) (h2 : q < pos + xs.length) :
    applyWrites (stripeWrites xs pos) b q = xs.getD (q - pos) '\x00' := by
  obtain ⟨m, rfl⟩ : ∃ m, q = pos + m := ⟨q - pos, by omega⟩
  rw [applyWrites_stripe xs pos b m (by omega)]
  congr 1
  omega

/-- Applying the write events of the emit loop to any buffer produces
exactly the slot expansion, byte for byte. -/
theorem emitArgSlots_apply (row : List Char) (vals : List Nat) :
    ∀ (slots : List SeqArgInfo) (pos ofs : Nat) (b : Nat → Char) (q : Nat),
      pos ≤ q → q < pos + (renderSlotsBytes row vals slots ofs).length →
      applyWrites (emitArgSlots row vals slots pos ofs).1 b q =
        (renderSlotsBytes row vals slots ofs).getD (q - pos) '\x00'
  | [], _, _, _, q, hq1, hq2 => by
    simp only [renderSlotsBytes, List.length_nil] at hq2
    omega
  | a :: rest, pos, ofs, b, q, hq1, hq2 => by
    have hdlen : 1 ≤ (decDigits (vals.getD a.arg_index 0)).length := decDigits_len_pos _
    have hmax := le_max_left a.pre_len 1
    simp only [renderSlotsBytes, List.length_append, rowSlice_length] at hq2 ⊢
    simp only [emitArgSlots, writeDigits, copy_bytes]
    rw [applyWrites_append, applyWrites_append]
    by_cases h1 : q < pos + a.pre_len
    · -- inside the literal run of this slot
      rw [applyWrites_notin _ _ _ (fun pc hpc => by
        have := emitArgSlots_mem row vals rest _ _ pc hpc
        omega)]
      rw [applyWrites_notin _ _ _ (fun pc hpc => by
        have := stripeWrites_mem _ _ pc hpc
        omega)]
      rw [applyWrites_stripe_sub _ _ _ _ hq1 (by rw [rowSlice_length]; omega)]
      rw [rowSlice_getD row '\x00' (max a.pre_len 1) ofs (q - pos) (by omega)]
      rw [listGetD_append_left '\x00' _ _ (q - pos)
        (by simp only [List.length_append, rowSlice_length]; omega)]
      rw [listGetD_append_left '\x00' _ _ (q - pos) (by rw [rowSlice_length]; omega)]
      rw [rowSlice_getD row '\x00' a.pre_len ofs (q - pos) (by omega)]
    · by_cases h2 : q < pos + a.pre_len + (decDigits (vals.getD a.arg_index 0)).length
      · -- inside the digits of this slot
        rw [applyWrites_notin _ _ _ (fun pc hpc => by
          have := emitArgSlots_mem row vals rest _ _ pc hpc
          omega)]
        rw [applyWrites_stripe_sub _ _ _ _ (by omega) (by omega)]
        rw [listGetD_append_left '\x00' _ _ (q - pos)
          (by simp only [List.length_append, rowSlice_length]; omega)]
        rw [listGetD_append_sub '\x00' _ _ (q - pos) (by rw [rowSlice_length]; omega)]
        rw [rowSlice_length]
        congr 1
        omega
      · -- inside the remaining slots
        rw [emitArgSlots_apply row vals rest
          (pos + a.pre_len + (decDigits (vals.getD a.arg_index 0)).length)
          (ofs + a.pre_len) _ q (by omega) (by omega)]
        rw [listGetD_append_sub '\x00' _ _ (q - pos)
          (by simp only [List.length_append, rowSlice_length]; omega)]
        simp only [List.length_append, rowSlice_length]
        congr 1
        omega

/-- Full emit content: when the first slot-table entry is a real slot,
the emitter writes the expansion of the first nArgs entries followed by
the trailing literal run recorded in entry nArgs, and advances the
cursor by exactly that many bytes. -/
theorem emit_seq_content (row : List Char) (vals : List Nat) (slots8 : List SeqArgInfo)
    (nArgs : Nat)
    (hhead : ¬(slots8.headD ⟨0, 0⟩).arg_index = ARG_INDEX_SENTINEL) :
    (emit_seq row slots8 nArgs vals).2 =
      (renderSlotsBytes row vals (slots8.take nArgs) 0 ++
        rowSlice row (sumPre (slots8.take nArgs))
          (slots8.getD nArgs ⟨0, ARG_INDEX_SENTINEL⟩).pre_len).length ∧
    ∀ (b : Nat → Char) (q : Nat),
      q < (renderSlotsBytes row vals (slots8.take nArgs) 0 ++
        rowSlice row (sumPre (slots8.take nArgs))
          (slots8.getD nArgs ⟨0, ARG_INDEX_SENTINEL⟩).pre_len).length →
      applyWrites (emit_seq row slots8 nArgs vals).1 b q =
        (renderSlotsBytes row vals (slots8.take nArgs) 0 ++
          rowSlice row (sumPre (slots8.take nArgs))
            (slots8.getD nArgs ⟨0, ARG_INDEX_SENTINEL⟩).pre_len).getD q '\x00' := by
  have hcur := emitArgSlots_cursor row vals (slots8.take nArgs) 0 0
  have hlen := renderSlotsBytes_length row vals (slots8.take nArgs) 0
  have hfmax := le_max_left (slots8.getD nArgs ⟨0, ARG_INDEX_SENTINEL⟩).pre_len 1
  constructor
  · simp only [emit_seq, if_neg hhead, List.length_append, rowSlice_length]
    rw [hcur.1, hlen]
    omega
  · intro b q hq
    simp only [List.length_append, rowSlice_length] at hq
    simp only [emit_seq, if_neg hhead, copy_bytes]
    rw [applyWrites_append]
    by_cases hsmall : q < (renderSlotsBytes row vals (slots8.take nArgs) 0).length
    · rw [applyWrites_notin _ _ _ (fun pc hpc => by
        have hm := stripeWrites_mem _ _ pc hpc
        omega)]
      rw [emitArgSlots_apply row vals (slots8.take nArgs) 0 0 b q (by omega) (by omega)]
      rw [listGetD_append_left '\x00' _ _ q hsmall]
      simp only [Nat.sub_zero]
    · rw [applyWrites_stripe_sub _ _ _ q (by omega)
        (by rw [rowSlice_length]; omega)]
      rw [rowSlice_getD row '\x00' _ _ _ (by omega)]
      rw [listGetD_append_sub '\x00' _ _ q (by omega)]
      rw [rowSlice_getD row '\x00' _ _ _ (by omega)]
      congr 1
      omega

theorem listTake_all {α : Type} :
    ∀ (l : List α) (n : Nat), l.length ≤ n → l.take n = l
  | [], _, _ => by simp
  | a :: l, 0, h => by simp at h
  | a :: l, n + 1, h => by
    simp only [List.take_succ_cons]
    rw [listTake_all l n (by simpa using h)]

/-- C2 (amended): for every accepted template whose placeholder count
equals the kind's declared argument count and whose compiled literal
byte total is at most CHAFA_TERM_SEQ_MAX (the undersized copy length of
the install step), installing it and then emitting the kind writes
exactly the template expansion into the destination buffer — the
literal bytes verbatim with %% collapsed and each placeholder replaced
by the decimal ASCII digits of its argument — and returns the cursor
advanced by the expansion length.  Argument-taking kinds emit through
the slot loop; 0-argument kinds through the 0-argument entry point. -/
theorem C2_amended (h : Heap) (t : TermInfo) (seq : Int) (m : SeqMeta)
    (inp out : List Char) (slots8 : List SeqArgInfo) (vals : List Nat) (base : Nat → Char)
    (hseq : 0 ≤ seq ∧ seq < (CHAFA_TERM_SEQ_MAX : Int))
    (hp : parse_seq_args inp m.n_args (if m.type_size = 1 then 3 else 4) =
      Except.ok (out, slots8))
    (hfull : realCount slots8 = m.n_args)
    (hlen : vals.length = m.n_args)
    (hout42 : out.length ≤ CHAFA_TERM_SEQ_MAX) :
    (chafa_term_info_set_seq h t seq m (some inp)).1 = true ∧
    (1 ≤ m.n_args →
      (chafa_term_info_emit_argful (chafa_term_info_set_seq h t seq m (some inp)).2.2.2
          seq.toNat m.n_args vals).2 = (renderTemplate vals inp).length ∧
      ∀ q, q < (renderTemplate vals inp).length →
        applyWrites (chafa_term_info_emit_argful
            (chafa_term_info_set_seq h t seq m (some inp)).2.2.2
            seq.toNat m.n_args vals).1 base q = (renderTemplate vals inp).getD q '\x00') ∧
    (m.n_args = 0 →
      (chafa_term_info_emit_0 (chafa_term_info_set_seq h t seq m (some inp)).2.2.2
          seq.toNat).2 = (renderTemplate vals inp).length ∧
      ∀ q, q < (renderTemplate vals inp).length →
        applyWrites (chafa_term_info_emit_0
            (chafa_term_info_set_seq h t seq m (some inp)).2.2.2 seq.toNat).1 base q =
          (renderTemplate vals inp).getD q '\x00') := by
  obtain ⟨s, houteq, hsl, hk8, hchk, hinv, hrun⟩ := parse_ok_elim hp
  subst houteq
  simp only [stInv] at hinv
  obtain ⟨hji, hki, hsum, hkle, hidx⟩ := hinv
  have hidx7 : ∀ a ∈ s.slots, a.arg_index ≤ 7 := fun a ha => (hidx a ha).2
  have hn : m.n_args = s.slots.length := by
    rw [hsl, realCount_append_sentinel s.slots hidx7] at hfull
    exact hfull.symm
  have hrender : renderTemplate vals inp = emitView vals s := by
    have h0 : scanInv m.n_args (ScanSt.running ⟨[], [], 0, 0, 0⟩ false) :=
      ⟨⟨rfl, rfl, rfl, by simp, by simp⟩, by simp⟩
    exact scan_render m.n_args vals inp ⟨[], [], 0, 0, 0⟩ false s hrun h0
  have hset : chafa_term_info_set_seq h t seq m (some inp) =
      (true, none, ((heapFreeOpt h (t.unparsed_str seq.toNat)).alloc inp).1,
        { seq_str := fun i => if i = seq.toNat then
              (s.out ++ List.replicate (CHAFA_TERM_SEQ_MAX - s.out.length) '\x00').take
                  CHAFA_TERM_SEQ_MAX ++ (t.seq_str seq.toNat).drop CHAFA_TERM_SEQ_MAX
            else t.seq_str i
          seq_args := fun i => if i = seq.toNat then slots8 else t.seq_args i
          unparsed_str := fun i => if i = seq.toNat then
              some ((heapFreeOpt h (t.unparsed_str seq.toNat)).alloc inp).2
            else t.unparsed_str i }) := by
    simp only [chafa_term_info_set_seq, if_pos hseq, hp]
  have hrowt2 : (chafa_term_info_set_seq h t seq m (some inp)).2.2.2.seq_str seq.toNat =
      (s.out ++ List.replicate (CHAFA_TERM_SEQ_MAX - s.out.length) '\x00').take
          CHAFA_TERM_SEQ_MAX ++ (t.seq_str seq.toNat).drop CHAFA_TERM_SEQ_MAX := by
    rw [hset]
    simp
  have hargst2 : (chafa_term_info_set_seq h t seq m (some inp)).2.2.2.seq_args seq.toNat =
      slots8 := by
    rw [hset]
    simp
  have hpadlen : (s.out ++ List.replicate (CHAFA_TERM_SEQ_MAX - s.out.length) '\x00').length =
      CHAFA_TERM_SEQ_MAX := by
    simp only [List.length_append, List.length_replicate]
    omega
  have htk : (s.out ++ List.replicate (CHAFA_TERM_SEQ_MAX - s.out.length) '\x00').take
      CHAFA_TERM_SEQ_MAX = s.out ++ List.replicate (CHAFA_TERM_SEQ_MAX - s.out.length) '\x00' :=
    listTake_all _ _ (le_of_eq hpadlen)
  have hagree : ∀ i, i < s.out.length →
      ((s.out ++ List.replicate (CHAFA_TERM_SEQ_MAX - s.out.length) '\x00').take
          CHAFA_TERM_SEQ_MAX ++ (t.seq_str seq.toNat).drop CHAFA_TERM_SEQ_MAX).getD i '\x00' =
        s.out.getD i '\x00' := by
    intro i hi
    rw [htk]
    rw [listGetD_append_left '\x00' _ _ i (by
      simp only [List.length_append, List.length_replicate]
      omega)]
    rw [listGetD_append_left '\x00' _ _ i hi]
  have hsp : sumPre s.slots ≤ s.out.length := by omega
  have hslotsT : renderSlotsBytes
      ((s.out ++ List.replicate (CHAFA_TERM_SEQ_MAX - s.out.length) '\x00').take
          CHAFA_TERM_SEQ_MAX ++ (t.seq_str seq.toNat).drop CHAFA_TERM_SEQ_MAX)
      vals s.slots 0 = renderSlotsBytes s.out vals s.slots 0 := by
    refine renderSlotsBytes_congr _ _ vals s.slots 0 (fun i hi => ?_)
    have := hagree (0 + i) (by omega)
    simpa using this
  have htrailT : rowSlice
      ((s.out ++ List.replicate (CHAFA_TERM_SEQ_MAX - s.out.length) '\x00').take
          CHAFA_TERM_SEQ_MAX ++ (t.seq_str seq.toNat).drop CHAFA_TERM_SEQ_MAX)
      (sumPre s.slots) s.preLen = rowSlice s.out (sumPre s.slots) s.preLen := by
    refine rowSlice_congr _ _ s.preLen (sumPre s.slots) (fun i hi => ?_)
    exact hagree (sumPre s.slots + i) (by omega)
  refine ⟨by rw [hset], ?_, ?_⟩
  · -- argument-taking kinds
    intro hn1
    have hk1 : 1 ≤ s.slots.length := by omega
    have hhead : ¬(slots8.headD ⟨0, 0⟩).arg_index = ARG_INDEX_SENTINEL := by
      rw [hsl]
      cases hsss : s.slots with
      | nil => rw [hsss] at hk1; simp at hk1
      | cons a rest =>
        simp only [List.cons_append, List.headD_cons]
        have := hidx7 a (by rw [hsss]; exact List.mem_cons_self a rest)
        simp only [ARG_INDEX_SENTINEL]
        omega
    have htake : slots8.take m.n_args = s.slots := by
      rw [hsl, hn]
      exact listTake_append_self s.slots _
    have hgetn : slots8.getD m.n_args ⟨0, ARG_INDEX_SENTINEL⟩ =
        ⟨s.preLen, ARG_INDEX_SENTINEL⟩ := by
      rw [hsl, hn]
      exact listGetD_append_cons _ s.slots _ _
    have hcontent := emit_seq_content
      ((s.out ++ List.replicate (CHAFA_TERM_SEQ_MAX - s.out.length) '\x00').take
          CHAFA_TERM_SEQ_MAX ++ (t.seq_str seq.toNat).drop CHAFA_TERM_SEQ_MAX)
      vals slots8 m.n_args hhead
    rw [htake, hgetn] at hcontent
    have hproj : (⟨s.preLen, ARG_INDEX_SENTINEL⟩ : SeqArgInfo).pre_len = s.preLen := rfl
    rw [hproj, hslotsT, htrailT] at hcontent
    constructor
    · rw [hrender]
      show (chafa_term_info_emit_argful (chafa_term_info_set_seq h t seq m (some inp)).2.2.2
          seq.toNat m.n_args vals).2 = (emitView vals s).length
      simp only [chafa_term_info_emit_argful, hrowt2, hargst2]
      exact hcontent.1
    · intro q hq
      rw [hrender] at hq ⊢
      simp only [chafa_term_info_emit_argful, hrowt2, hargst2]
      exact hcontent.2 base q hq
  · -- 0-argument kinds
    intro hn0
    have hk0 : s.slots = [] := by
      have : s.slots.length = 0 := by omega
      exact List.length_eq_zero.mp this
    have hpre : s.preLen = s.out.length := by
      rw [hk0, sumPre_nil] at hsum
      omega
    have hhd : slots8.headD ⟨0, ARG_INDEX_SENTINEL⟩ = ⟨s.preLen, ARG_INDEX_SENTINEL⟩ := by
      rw [hsl, hk0]
      simp
    have hR : renderTemplate vals inp = rowSlice s.out 0 s.preLen := by
      rw [hrender]
      show renderSlotsBytes s.out vals s.slots 0 ++ rowSlice s.out (sumPre s.slots) s.preLen =
        rowSlice s.out 0 s.preLen
      rw [hk0]
      show ([] : List Char) ++ rowSlice s.out (sumPre []) s.preLen = rowSlice s.out 0 s.preLen
      rw [List.nil_append, sumPre_nil]
    have hmax := le_max_left s.preLen 1
    constructor
    · rw [hR, rowSlice_length]
      simp only [chafa_term_info_emit_0, emit_seq_0_args, hrowt2, hargst2, hhd]
    · intro q hq
      rw [hR, rowSlice_length] at hq
      rw [hR]
      simp only [chafa_term_info_emit_0, emit_seq_0_args, hrowt2, hargst2, hhd, copy_bytes]
      have hstep := applyWrites_stripe_sub
        (rowSlice ((s.out ++ List.replicate (CHAFA_TERM_SEQ_MAX - s.out.length) '\x00').take
            CHAFA_TERM_SEQ_MAX ++ (t.seq_str seq.toNat).drop CHAFA_TERM_SEQ_MAX) 0
          (max (⟨s.preLen, ARG_INDEX_SENTINEL⟩ : SeqArgInfo).pre_len 1))
        0 base q (by omega) (by rw [rowSlice_length]; show q < 0 + max s.preLen 1; omega)
      rw [hstep]
      rw [rowSlice_getD _ '\x00' _ _ _ (show q - 0 < max s.preLen 1 by omega)]
      rw [rowSlice_getD s.out '\x00' s.preLen 0 q hq]
      have := hagree (0 + (q - 0)) (by omega)
      simpa using this

/-- C2 counterexample: on the claim's own example — template "\x1b[%1;%2m"
installed for a 2-argument wide-width kind and emitted with arguments
(31, 1) — the set step succeeds but the emitter returns the cursor
advanced by 7 bytes (the length of "\x1b[31;1m"), not by 8 as the claim
states. -/
theorem C2_counterexample :
    (chafa_term_info_set_seq ⟨[]⟩ chafa_term_info_new 0 ⟨2, 4⟩
        (some ['\x1b', '[', '%', '1', ';', '%', '2', 'm'])).1 = true ∧
    (chafa_term_info_emit_argful
        (chafa_term_info_set_seq ⟨[]⟩ chafa_term_info_new 0 ⟨2, 4⟩
          (some ['\x1b', '[', '%', '1', ';', '%', '2', 'm'])).2.2.2
        0 2 [31, 1]).2 = 7 ∧ (7 : Nat) ≠ 8 := by
  refine ⟨?_, ?_, by decide⟩
  · decide
  · decide

theorem C2_amended_witness :
    (chafa_term_info_set_seq ⟨[]⟩ chafa_term_info_new 0 ⟨2, 4⟩
        (some ['\x1b', '[', '%', '1', ';', '%', '2', 'm'])).1 = true ∧
    (chafa_term_info_emit_argful
        (chafa_term_info_set_seq ⟨[]⟩ chafa_term_info_new 0 ⟨2, 4⟩
          (some ['\x1b', '[', '%', '1', ';', '%', '2', 'm'])).2.2.2
        0 2 [31, 1]).2 =
      (renderTemplate [31, 1] ['\x1b', '[', '%', '1', ';', '%', '2', 'm']).length := by
  have H := C2_amended ⟨[]⟩ chafa_term_info_new 0 ⟨2, 4⟩
    ['\x1b', '[', '%', '1', ';', '%', '2', 'm'] ['\x1b', '[', ';', 'm']
    [⟨2, 0⟩, ⟨1, 1⟩, ⟨1, ARG_INDEX_SENTINEL⟩, ⟨0, ARG_INDEX_SENTINEL⟩,
      ⟨0, ARG_INDEX_SENTINEL⟩, ⟨0, ARG_INDEX_SENTINEL⟩, ⟨0, ARG_INDEX_SENTINEL⟩,
      ⟨0, ARG_INDEX_SENTINEL⟩]
    [31, 1] (fun _ => '\x00')
    (by decide) (by decide) (by decide) (by decide) (by decide)
  exact ⟨H.1, (H.2.1 (by decide)).1⟩

/-- C3: when the set operation fails — out-of-range kind or any parse
failure — the heap and the container come back completely untouched:
every kind's compiled row, slot table and raw template survive
identically, so the operation is transactional. -/
theorem C3_failure_no_mutation (h : Heap) (t : TermInfo) (seq : Int) (m : SeqMeta)
    (str : Option (List Char))
    (hf : (chafa_term_info_set_seq h t seq m str).1 = false) :
    (chafa_term_info_set_seq h t seq m str).2.2.1 = h ∧
    (chafa_term_info_set_seq h t seq m str).2.2.2 = t := by
  by_cases hg : 0 ≤ seq ∧ seq < (CHAFA_TERM_SEQ_MAX : Int)
  · cases str with
    | none =>
      simp only [chafa_term_info_set_seq, if_pos hg] at hf
      exact absurd hf (by simp)
    | some s =>
      cases hpe : parse_seq_args s m.n_args (if m.type_size = 1 then 3 else 4) with
      | error e =>
        simp only [chafa_term_info_set_seq, if_pos hg, hpe]
        exact ⟨trivial, trivial⟩
      | ok r =>
        simp only [chafa_term_info_set_seq, if_pos hg, hpe] at hf
        exact absurd hf (by simp)
  · simp only [chafa_term_info_set_seq, if_neg hg]
    exact ⟨trivial, trivial⟩

theorem C3_failure_no_mutation_witness :
    (chafa_term_info_set_seq ⟨[]⟩ chafa_term_info_new 0 ⟨1, 4⟩ (some ['%', 'q'])).1 = false ∧
    (chafa_term_info_set_seq ⟨[]⟩ chafa_term_info_new 0 ⟨1, 4⟩
        (some ['%', 'q'])).2.2.1 = ⟨[]⟩ ∧
    (chafa_term_info_set_seq ⟨[]⟩ chafa_term_info_new 0 ⟨1, 4⟩
        (some ['%', 'q'])).2.2.2 = chafa_term_info_new := by
  have H := C3_failure_no_mutation ⟨[]⟩ chafa_term_info_new 0 ⟨1, 4⟩ (some ['%', 'q'])
    (by decide)
  exact ⟨by decide, H.1, H.2⟩

/-- C4: round-trip — after a successful set of a template string for an
in-range kind, reading that kind back through the getter returns exactly
the original string. -/
theorem C4_roundtrip (h : Heap) (t : TermInfo) (seq : Int) (m : SeqMeta) (s : List Char)
    (hs : (chafa_term_info_set_seq h t seq m (some s)).1 = true) :
    chafa_term_info_get_seq (chafa_term_info_set_seq h t seq m (some s)).2.2.1
      (some (chafa_term_info_set_seq h t seq m (some s)).2.2.2) seq = some s := by
  by_cases hg : 0 ≤ seq ∧ seq < (CHAFA_TERM_SEQ_MAX : Int)
  · cases hpe : parse_seq_args s m.n_args (if m.type_size = 1 then 3 else 4) with
    | error e =>
      simp only [chafa_term_info_set_seq, if_pos hg, hpe] at hs
      exact absurd hs (by simp)
    | ok r =>
      simp only [chafa_term_info_set_seq, if_pos hg, hpe, chafa_term_info_get_seq,
        Heap.alloc, Heap.get]
      exact listGetD_append_cons none _ (some s) []
  · simp only [chafa_term_info_set_seq, if_neg hg] at hs
    exact absurd hs (by simp)

theorem C4_roundtrip_witness :
    (chafa_term_info_set_seq ⟨[]⟩ chafa_term_info_new 0 ⟨0, 4⟩ (some ['a', 'b'])).1 = true ∧
    chafa_term_info_get_seq (chafa_term_info_set_seq ⟨[]⟩ chafa_term_info_new 0 ⟨0, 4⟩
        (some ['a', 'b'])).2.2.1
      (some (chafa_term_info_set_seq ⟨[]⟩ chafa_term_info_new 0 ⟨0, 4⟩
        (some ['a', 'b'])).2.2.2) 0 = some ['a', 'b'] :=
  ⟨by decide, C4_roundtrip ⟨[]⟩ chafa_term_info_new 0 ⟨0, 4⟩ ['a', 'b'] (by decide)⟩

/-- C5 counterexample: on a freshly created container the kind reports
absent, yet the 0-argument emit entry point does not write zero bytes —
its unconditional at-least-one-byte copy emits one NUL byte (while the
argument-taking entry points, which do check the sentinel, emit
nothing). -/
theorem C5_counterexample :
    chafa_term_info_have_seq (some chafa_term_info_new) 0 = false ∧
    (chafa_term_info_emit_0 chafa_term_info_new 0).1 = [(0, '\x00')] ∧
    (chafa_term_info_emit_0 chafa_term_info_new 0).1 ≠ [] :=
  ⟨by decide, by decide, by decide⟩

/-- C5 (amended): clearing a kind always succeeds and the kind then
reports absent; on a cleared or never-configured kind the
argument-taking emit entry points write zero bytes and return the
cursor unchanged (they check the sentinel in slot 0), while the
0-argument entry point — which has no sentinel check and whose copy
primitive always copies at least one byte — writes exactly one byte,
the cleared row's NUL, though it too returns the cursor unchanged. -/
theorem C5_amended (h : Heap) (t : TermInfo) (seq : Int) (m : SeqMeta)
    (hg : 0 ≤ seq ∧ seq < (CHAFA_TERM_SEQ_MAX : Int))
    (hne : t.seq_args seq.toNat ≠ []) :
    (chafa_term_info_set_seq h t seq m none).1 = true ∧
    chafa_term_info_have_seq (some (chafa_term_info_set_seq h t seq m none).2.2.2) seq
      = false ∧
    (∀ n vals, chafa_term_info_emit_argful (chafa_term_info_set_seq h t seq m none).2.2.2
        seq.toNat n vals = ([], 0)) ∧
    chafa_term_info_emit_0 (chafa_term_info_set_seq h t seq m none).2.2.2 seq.toNat =
      ([(0, '\x00')], 0) ∧
    (∀ k n vals, chafa_term_info_emit_argful chafa_term_info_new k n vals = ([], 0)) ∧
    (∀ k, chafa_term_info_emit_0 chafa_term_info_new k = ([(0, '\x00')], 0)) := by
  have hset : chafa_term_info_set_seq h t seq m none =
      (true, none, heapFreeOpt h (t.unparsed_str seq.toNat),
        { seq_str := fun i =>
            if i = seq.toNat then (t.seq_str seq.toNat).set 0 '\x00' else t.seq_str i
          seq_args := fun i =>
            if i = seq.toNat then (t.seq_args seq.toNat).set 0 ⟨0, ARG_INDEX_SENTINEL⟩
            else t.seq_args i
          unparsed_str := fun i => if i = seq.toNat then none else t.unparsed_str i }) := by
    simp only [chafa_term_info_set_seq, if_pos hg]
  have hargs : (chafa_term_info_set_seq h t seq m none).2.2.2.seq_args seq.toNat =
      (t.seq_args seq.toNat).set 0 ⟨0, ARG_INDEX_SENTINEL⟩ := by
    rw [hset]
    simp
  have hrow : (chafa_term_info_set_seq h t seq m none).2.2.2.seq_str seq.toNat =
      (t.seq_str seq.toNat).set 0 '\x00' := by
    rw [hset]
    simp
  have hup : (chafa_term_info_set_seq h t seq m none).2.2.2.unparsed_str seq.toNat =
      none := by
    rw [hset]
    simp
  obtain ⟨a, l, hT⟩ : ∃ a l, t.seq_args seq.toNat = a :: l := by
    cases hT : t.seq_args seq.toNat with
    | nil => exact absurd hT hne
    | cons a l => exact ⟨a, l, rfl⟩
  have hargs2 : (chafa_term_info_set_seq h t seq m none).2.2.2.seq_args seq.toNat =
      ⟨0, ARG_INDEX_SENTINEL⟩ :: l := by
    rw [hargs, hT]
    rfl
  have hbyte : ((t.seq_str seq.toNat).set 0 '\x00').getD 0 '\x00' = '\x00' := by
    cases t.seq_str seq.toNat with
    | nil => rfl
    | cons c cs => rfl
  refine ⟨by rw [hset], ?_, ?_, ?_, ?_, ?_⟩
  · simp only [chafa_term_info_have_seq, if_pos hg, hup, Option.isSome_none]
  · intro n vals
    simp only [chafa_term_info_emit_argful, hargs2, emit_seq, List.headD_cons]
    simp
  · simp only [chafa_term_info_emit_0, hargs2, hrow, emit_seq_0_args, List.headD_cons,
      copy_bytes]
    show (stripeWrites (rowSlice ((t.seq_str seq.toNat).set 0 '\x00') 0 (max 0 1)) 0,
      (0 : Nat)) = ([(0, '\x00')], 0)
    rw [show max 0 1 = 1 from rfl, rowSlice_one, hbyte]
    rfl
  · intro k n vals
    rfl
  · intro k
    rfl

theorem C5_amended_witness :
    (chafa_term_info_set_seq ⟨[]⟩ chafa_term_info_new 0 ⟨0, 1⟩ none).1 = true ∧
    chafa_term_info_have_seq (some (chafa_term_info_set_seq ⟨[]⟩ chafa_term_info_new 0
        ⟨0, 1⟩ none).2.2.2) 0 = false ∧
    chafa_term_info_emit_0 (chafa_term_info_set_seq ⟨[]⟩ chafa_term_info_new 0
        ⟨0, 1⟩ none).2.2.2 0 = ([(0, '\x00')], 0) := by
  have H := C5_amended ⟨[]⟩ chafa_term_info_new 0 ⟨0, 1⟩ (by decide) (by decide)
  exact ⟨H.1, H.2.1, H.2.2.2.1⟩

/-- C6 counterexample: setting the template "%9" for a 1-argument kind
fails, but not with a bad-arguments error — the digit 9 falls outside
the accepted placeholder range '1'..'8', so the scan takes the
malformed-escape exit, which reports no error at all: the error
out-parameter stays NULL. -/
theorem C6_counterexample :
    (chafa_term_info_set_seq ⟨[]⟩ chafa_term_info_new 0 ⟨1, 4⟩ (some ['%', '9'])).1 =
      false ∧
    (chafa_term_info_set_seq ⟨[]⟩ chafa_term_info_new 0 ⟨1, 4⟩ (some ['%', '9'])).2.1 =
      none ∧
    (none : Option ParseError) ≠ some ParseError.badArguments :=
  ⟨by decide, by decide, by decide⟩

/-- C6 (amended): "%%" always extends the literal run by a single '%'
(and a "%%" template emits exactly one '%' byte); "%9" always makes the
set operation fail, but through the malformed-escape exit with no error
reported; a placeholder digit inside '1'..'8' whose zero-based index
reaches or exceeds the kind's declared argument count is the case that
fails with the bad-arguments error. -/
theorem C6_amended (h : Heap) (t : TermInfo) (seq : Int) (m : SeqMeta) (c : Char)
    (hg : 0 ≤ seq ∧ seq < (CHAFA_TERM_SEQ_MAX : Int))
    (hc : '1' ≤ c ∧ c ≤ '8')
    (hn : m.n_args ≤ c.toNat - '1'.toNat) :
    (∀ (n : Nat) (s : LoopState), s.j < CHAFA_TERM_SEQ_LENGTH_MAX →
      s.k < CHAFA_TERM_SEQ_ARGS_MAX →
      scanTemplate n ['%', '%'] (ScanSt.running s false) =
        ScanSt.running ⟨s.out ++ ['%'], s.slots, s.j + 1, s.k, s.preLen + 1⟩ false) ∧
    chafa_term_info_set_seq h t seq m (some ['%', '9']) = (false, none, h, t) ∧
    chafa_term_info_set_seq h t seq m (some ['%', c]) =
      (false, some ParseError.badArguments, h, t) ∧
    (chafa_term_info_set_seq ⟨[]⟩ chafa_term_info_new 0 ⟨0, 1⟩ (some ['%', '%'])).1 =
      true ∧
    chafa_term_info_emit_0 (chafa_term_info_set_seq ⟨[]⟩ chafa_term_info_new 0 ⟨0, 1⟩
      (some ['%', '%'])).2.2.2 0 = ([(0, '%')], 1) := by
  refine ⟨?_, ?_, ?_, by decide, by decide⟩
  · intro n s hj hk
    have h1 : scanStep n (ScanSt.running s false) '%' = ScanSt.running s true := by
      simp only [scanStep]
      rw [if_pos (And.intro hj hk)]
      simp
    have h2 : scanStep n (ScanSt.running s true) '%' =
        ScanSt.running ⟨s.out ++ ['%'], s.slots, s.j + 1, s.k, s.preLen + 1⟩ false := by
      simp [scanStep]
    show scanStep n (scanStep n (ScanSt.running s false) '%') '%' =
      ScanSt.running ⟨s.out ++ ['%'], s.slots, s.j + 1, s.k, s.preLen + 1⟩ false
    rw [h1, h2]
  · have hp9 : parse_seq_args ['%', '9'] m.n_args (if m.type_size = 1 then 3 else 4) =
        Except.error ParseError.badEscape := rfl
    simp only [chafa_term_info_set_seq, if_pos hg, hp9]
    rfl
  · have hcne : ¬(c = '%') := by
      intro he
      have := hc.1
      rw [he] at this
      exact absurd this (by decide)
    have hstep1 : scanStep m.n_args (ScanSt.running ⟨[], [], 0, 0, 0⟩ false) '%' =
        ScanSt.running ⟨[], [], 0, 0, 0⟩ true := by
      simp [scanStep]
    have hstep2 : scanStep m.n_args (ScanSt.running ⟨[], [], 0, 0, 0⟩ true) c =
        ScanSt.failed ParseError.badArguments := by
      simp only [scanStep]
      rw [if_neg hcne, if_pos hc, if_pos hn]
      simp
    have hpc : parse_seq_args ['%', c] m.n_args (if m.type_size = 1 then 3 else 4) =
        Except.error ParseError.badArguments := by
      simp only [parse_seq_args, scanTemplate, List.foldl_cons, List.foldl_nil, hstep1,
        hstep2]
      rfl
    simp only [chafa_term_info_set_seq, if_pos hg, hpc]
    rfl

theorem C6_amended_witness :
    chafa_term_info_set_seq ⟨[]⟩ chafa_term_info_new 0 ⟨1, 4⟩ (some ['%', '9']) =
      (false, none, ⟨[]⟩, chafa_term_info_new) ∧
    chafa_term_info_set_seq ⟨[]⟩ chafa_term_info_new 0 ⟨1, 4⟩ (some ['%', '2']) =
      (false, some ParseError.badArguments, ⟨[]⟩, chafa_term_info_new) := by
  have H := C6_amended ⟨[]⟩ chafa_term_info_new 0 ⟨1, 4⟩ '2' (by decide) (by decide)
    (by decide)
  exact ⟨H.2.1, H.2.2.1⟩

theorem shape_escOk_stable (n : Nat) :
    ∀ (inp : List Char) (t : TplShape), t.escOk = false →
      (inp.foldl (shapeStep n) t).escOk = false
  | [], _, h => h
  | c :: rest, t, h => by
    rw [List.foldl_cons]
    refine shape_escOk_stable n rest (shapeStep n t c) ?_
    simp only [shapeStep]
    split
    · split
      · exact h
      · split
        · exact h
        · rfl
    · split
      · exact h
      · exact h

theorem shape_idxOk_stable (n : Nat) :
    ∀ (inp : List Char) (t : TplShape), t.idxOk = false →
      (inp.foldl (shapeStep n) t).idxOk = false
  | [], _, h => h
  | c :: rest, t, h => by
    rw [List.foldl_cons]
    refine shape_idxOk_stable n rest (shapeStep n t c) ?_
    simp only [shapeStep]
    split
    · split
      · exact h
      · split
        · simp [h]
        · exact h
    · split
      · exact h
      · exact h

theorem shape_mono (n : Nat) :
    ∀ (inp : List Char) (t : TplShape),
      t.lit ≤ (inp.foldl (shapeStep n) t).lit ∧
      t.nSlots ≤ (inp.foldl (shapeStep n) t).nSlots
  | [], _ => ⟨le_refl _, le_refl _⟩
  | c :: rest, t => by
    rw [List.foldl_cons]
    have ih := shape_mono n rest (shapeStep n t c)
    have hstep : t.lit ≤ (shapeStep n t c).lit ∧ t.nSlots ≤ (shapeStep n t c).nSlots := by
      simp only [shapeStep]
      split
      · split
        · exact ⟨Nat.le_succ _, le_refl _⟩
        · split
          · exact ⟨le_refl _, Nat.le_succ _⟩
          · exact ⟨le_refl _, le_refl _⟩
      · split
        · exact ⟨le_refl _, le_refl _⟩
        · exact ⟨Nat.le_succ _, le_refl _⟩
    exact ⟨le_trans hstep.1 ih.1, le_trans hstep.2 ih.2⟩

theorem shape_counters_congr (n1 n2 : Nat) :
    ∀ (inp : List Char) (t1 t2 : TplShape),
      t1.lit = t2.lit → t1.nSlots = t2.nSlots → t1.pending = t2.pending →
      (inp.foldl (shapeStep n1) t1).lit = (inp.foldl (shapeStep n2) t2).lit ∧
      (inp.foldl (shapeStep n1) t1).nSlots = (inp.foldl (shapeStep n2) t2).nSlots ∧
      (inp.foldl (shapeStep n1) t1).pending = (inp.foldl (shapeStep n2) t2).pending
  | [], _, _, hl, hs, hp => ⟨hl, hs, hp⟩
  | c :: rest, t1, t2, hl, hs, hp => by
    rw [List.foldl_cons, List.foldl_cons]
    refine shape_counters_congr n1 n2 rest (shapeStep n1 t1 c) (shapeStep n2 t2 c)
      ?_ ?_ ?_ <;>
    · simp only [shapeStep, hp]
      split
      · split
        · simp [hl, hs]
        · split
          · simp [hl, hs]
          · simp [hl, hs]
      · split
        · simp [hl, hs]
        · simp [hl, hs]

/-- The scan loop against the specification-level shape of the
template: on a well-formed template it either completes with the
literal and placeholder counters advanced by exactly the template's
totals, or stops early at the line-length guard with the literal
counter at the limit. -/
theorem scan_vs_shape (n : Nat) (inp : List Char) :
    ∀ (s : LoopState) (t : TplShape),
      (inp.foldl (shapeStep n) t).escOk = true →
      (inp.foldl (shapeStep n) t).idxOk = true →
      (inp.foldl (shapeStep n) t).pending = false →
      t.escOk = true → t.idxOk = true →
      s.k + ((inp.foldl (shapeStep n) t).nSlots - t.nSlots) ≤
        CHAFA_TERM_SEQ_ARGS_MAX - 1 →
      (∃ s2, scanTemplate n inp (ScanSt.running s t.pending) = ScanSt.running s2 false ∧
         s2.j + t.lit = s.j + (inp.foldl (shapeStep n) t).lit ∧
         s2.k + t.nSlots = s.k + (inp.foldl (shapeStep n) t).nSlots) ∨
      (∃ s2, scanTemplate n inp (ScanSt.running s t.pending) = ScanSt.stopped s2 ∧
         CHAFA_TERM_SEQ_LENGTH_MAX ≤ s2.j ∧
         s2.j + t.lit ≤ s.j + (inp.foldl (shapeStep n) t).lit ∧
         s2.k + t.nSlots ≤ s.k + (inp.foldl (shapeStep n) t).nSlots) := by
  induction inp with
  | nil =>
    intro s t hesc hidx hpend htesc htidx hk
    simp only [List.foldl_nil] at hpend ⊢
    rw [hpend]
    exact Or.inl ⟨s, rfl, rfl, rfl⟩
  | cons c rest ih =>
    intro s t hesc hidx hpend htesc htidx hk
    simp only [List.foldl_cons] at hesc hidx hpend hk ⊢
    cases hp : t.pending with
    | true =>
      by_cases hc : c = '%'
      · subst hc
        have ht2 : shapeStep n t '%' =
            ⟨t.lit + 1, t.nSlots, t.idxOk, t.escOk, false⟩ := by
          simp [shapeStep, hp]
        rw [ht2] at hesc hidx hpend hk ⊢
        have hstep : scanStep n (ScanSt.running s true) '%' =
            ScanSt.running ⟨s.out ++ ['%'], s.slots, s.j + 1, s.k, s.preLen + 1⟩ false := by
          simp [scanStep]
        have hkIH : (⟨s.out ++ ['%'], s.slots, s.j + 1, s.k, s.preLen + 1⟩ : LoopState).k +
            ((rest.foldl (shapeStep n)
                ⟨t.lit + 1, t.nSlots, t.idxOk, t.escOk, false⟩).nSlots -
              (⟨t.lit + 1, t.nSlots, t.idxOk, t.escOk, false⟩ : TplShape).nSlots) ≤
            CHAFA_TERM_SEQ_ARGS_MAX - 1 := hk
        have H := ih ⟨s.out ++ ['%'], s.slots, s.j + 1, s.k, s.preLen + 1⟩
          ⟨t.lit + 1, t.nSlots, t.idxOk, t.escOk, false⟩ hesc hidx hpend htesc htidx hkIH
        cases H with
        | inl H =>
          obtain ⟨s2, hEq, h1, h2⟩ := H
          refine Or.inl ⟨s2, ?_, ?_, ?_⟩
          · show scanTemplate n rest (scanStep n (ScanSt.running s true) '%') =
              ScanSt.running s2 false
            rw [hstep]
            exact hEq
          · have h1b : s2.j + (t.lit + 1) = (s.j + 1) +
                (rest.foldl (shapeStep n)
                  ⟨t.lit + 1, t.nSlots, t.idxOk, t.escOk, false⟩).lit := h1
            show s2.j + t.lit = s.j +
              (rest.foldl (shapeStep n)
                ⟨t.lit + 1, t.nSlots, t.idxOk, t.escOk, false⟩).lit
            omega
          · have h2b : s2.k + t.nSlots = s.k +
                (rest.foldl (shapeStep n)
                  ⟨t.lit + 1, t.nSlots, t.idxOk, t.escOk, false⟩).nSlots := h2
            exact h2b
        | inr H =>
          obtain ⟨s2, hEq, hj96, h1, h2⟩ := H
          refine Or.inr ⟨s2, ?_, hj96, ?_, ?_⟩
          · show scanTemplate n rest (scanStep n (ScanSt.running s true) '%') =
              ScanSt.stopped s2
            rw [hstep]
            exact hEq
          · have h1b : s2.j + (t.lit + 1) ≤ (s.j + 1) +
                (rest.foldl (shapeStep n)
                  ⟨t.lit + 1, t.nSlots, t.idxOk, t.escOk, false⟩).lit := h1
            show s2.j + t.lit ≤ s.j +
              (rest.foldl (shapeStep n)
                ⟨t.lit + 1, t.nSlots, t.idxOk, t.escOk, false⟩).lit
            omega
          · exact h2
      · by_cases hd : '1' ≤ c ∧ c ≤ '8'
        · have ht2 : shapeStep n t c =
              ⟨t.lit, t.nSlots + 1, t.idxOk && decide (c.toNat - '1'.toNat < n),
                t.escOk, false⟩ := by
            simp only [shapeStep, hp]
            rw [if_pos trivial, if_neg hc, if_pos hd]
          rw [ht2] at hesc hidx hpend hk ⊢
          have hidx1 : (t.idxOk && decide (c.toNat - '1'.toNat < n)) = true := by
            by_contra hff
            have hff2 : (t.idxOk && decide (c.toNat - '1'.toNat < n)) = false :=
              Bool.not_eq_true _ ▸ (by simpa using hff)
            have hst := shape_idxOk_stable n rest
              ⟨t.lit, t.nSlots + 1, t.idxOk && decide (c.toNat - '1'.toNat < n),
                t.escOk, false⟩ hff2
            rw [hst] at hidx
            exact absurd hidx (by simp)
          have hlt : c.toNat - '1'.toNat < n := by
            have h := hidx1
            simp only [Bool.and_eq_true, decide_eq_true_eq] at h
            exact h.2
          have hstep : scanStep n (ScanSt.running s true) c =
              ScanSt.running ⟨s.out, s.slots ++ [⟨s.preLen, c.toNat - '1'.toNat⟩],
                s.j, s.k + 1, 0⟩ false := by
            simp only [scanStep]
            rw [if_pos trivial, if_neg hc, if_pos hd, if_neg (by omega)]
          have hmono := (shape_mono n rest
            ⟨t.lit, t.nSlots + 1, t.idxOk && decide (c.toNat - '1'.toNat < n),
              t.escOk, false⟩).2
          have hmono2 : t.nSlots + 1 ≤
              (rest.foldl (shapeStep n)
                ⟨t.lit, t.nSlots + 1, t.idxOk && decide (c.toNat - '1'.toNat < n),
                  t.escOk, false⟩).nSlots := hmono
          have hkb : s.k + ((rest.foldl (shapeStep n)
              ⟨t.lit, t.nSlots + 1, t.idxOk && decide (c.toNat - '1'.toNat < n),
                t.escOk, false⟩).nSlots - t.nSlots) ≤ CHAFA_TERM_SEQ_ARGS_MAX - 1 := hk
          have hkIH : (⟨s.out, s.slots ++ [⟨s.preLen, c.toNat - '1'.toNat⟩],
              s.j, s.k + 1, 0⟩ : LoopState).k +
              ((rest.foldl (shapeStep n)
                ⟨t.lit, t.nSlots + 1, t.idxOk && decide (c.toNat - '1'.toNat < n),
                  t.escOk, false⟩).nSlots -
                (⟨t.lit, t.nSlots + 1, t.idxOk && decide (c.toNat - '1'.toNat < n),
                  t.escOk, false⟩ : TplShape).nSlots) ≤
              CHAFA_TERM_SEQ_ARGS_MAX - 1 := by
            show s.k + 1 + ((rest.foldl (shapeStep n)
                ⟨t.lit, t.nSlots + 1, t.idxOk && decide (c.toNat - '1'.toNat < n),
                  t.escOk, false⟩).nSlots - (t.nSlots + 1)) ≤ CHAFA_TERM_SEQ_ARGS_MAX - 1
            omega
          have H := ih ⟨s.out, s.slots ++ [⟨s.preLen, c.toNat - '1'.toNat⟩],
              s.j, s.k + 1, 0⟩
            ⟨t.lit, t.nSlots + 1, t.idxOk && decide (c.toNat - '1'.toNat < n),
              t.escOk, false⟩ hesc hidx hpend htesc hidx1 hkIH
          cases H with
          | inl H =>
            obtain ⟨s2, hEq, h1, h2⟩ := H
            refine Or.inl ⟨s2, ?_, h1, ?_⟩
            · show scanTemplate n rest (scanStep n (ScanSt.running s true) c) =
                ScanSt.running s2 false
              rw [hstep]
              exact hEq
            · have h2b : s2.k + (t.nSlots + 1) = (s.k + 1) +
                  (rest.foldl (shapeStep n)
                    ⟨t.lit, t.nSlots + 1, t.idxOk && decide (c.toNat - '1'.toNat < n),
                      t.escOk, false⟩).nSlots := h2
              show s2.k + t.nSlots = s.k +
                (rest.foldl (shapeStep n)
                  ⟨t.lit, t.nSlots + 1, t.idxOk && decide (c.toNat - '1'.toNat < n),
                    t.escOk, false⟩).nSlots
              omega
          | inr H =>
            obtain ⟨s2, hEq, hj96, h1, h2⟩ := H
            refine Or.inr ⟨s2, ?_, hj96, h1, ?_⟩
            · show scanTemplate n rest (scanStep n (ScanSt.running s true) c) =
                ScanSt.stopped s2
              rw [hstep]
              exact hEq
            · have h2b : s2.k + (t.nSlots + 1) ≤ (s.k + 1) +
                  (rest.foldl (shapeStep n)
                    ⟨t.lit, t.nSlots + 1, t.idxOk && decide (c.toNat - '1'.toNat < n),
                      t.escOk, false⟩).nSlots := h2
              show s2.k + t.nSlots ≤ s.k +
                (rest.foldl (shapeStep n)
                  ⟨t.lit, t.nSlots + 1, t.idxOk && decide (c.toNat - '1'.toNat < n),
                    t.escOk, false⟩).nSlots
              omega
        · have ht2 : shapeStep n t c = ⟨t.lit, t.nSlots, t.idxOk, false, false⟩ := by
            simp only [shapeStep, hp]
            rw [if_pos trivial, if_neg hc, if_neg hd]
          rw [ht2] at hesc
          have hst := shape_escOk_stable n rest
            ⟨t.lit, t.nSlots, t.idxOk, false, false⟩ rfl
          rw [hst] at hesc
          exact absurd hesc (by simp)
    | false =>
      by_cases hg : s.j < CHAFA_TERM_SEQ_LENGTH_MAX ∧ s.k < CHAFA_TERM_SEQ_ARGS_MAX
      · by_cases hc : c = '%'
        · subst hc
          have ht2 : shapeStep n t '%' =
              ⟨t.lit, t.nSlots, t.idxOk, t.escOk, true⟩ := by
            simp [shapeStep, hp]
          rw [ht2] at hesc hidx hpend hk ⊢
          have hstep : scanStep n (ScanSt.running s false) '%' =
              ScanSt.running s true := by
            simp only [scanStep]
            rw [if_neg (by simp), if_pos hg, if_pos trivial]
          have H := ih s ⟨t.lit, t.nSlots, t.idxOk, t.escOk, true⟩
            hesc hidx hpend htesc htidx hk
          cases H with
          | inl H =>
            obtain ⟨s2, hEq, h1, h2⟩ := H
            refine Or.inl ⟨s2, ?_, h1, h2⟩
            show scanTemplate n rest (scanStep n (ScanSt.running s false) '%') =
              ScanSt.running s2 false
            rw [hstep]
            exact hEq
          | inr H =>
            obtain ⟨s2, hEq, hj96, h1, h2⟩ := H
            refine Or.inr ⟨s2, ?_, hj96, h1, h2⟩
            show scanTemplate n rest (scanStep n (ScanSt.running s false) '%') =
              ScanSt.stopped s2
            rw [hstep]
            exact hEq
        · have ht2 : shapeStep n t c =
              ⟨t.lit + 1, t.nSlots, t.idxOk, t.escOk, false⟩ := by
            simp only [shapeStep, hp]
            rw [if_neg (by simp), if_neg hc]
          rw [ht2] at hesc hidx hpend hk ⊢
          have hstep : scanStep n (ScanSt.running s false) c =
              ScanSt.running ⟨s.out ++ [c], s.slots, s.j + 1, s.k, s.preLen + 1⟩
                false := by
            simp only [scanStep]
            rw [if_neg (by simp), if_pos hg, if_neg hc]
          have hkIH : (⟨s.out ++ [c], s.slots, s.j + 1, s.k, s.preLen + 1⟩ : LoopState).k +
              ((rest.foldl (shapeStep n)
                  ⟨t.lit + 1, t.nSlots, t.idxOk, t.escOk, false⟩).nSlots -
                (⟨t.lit + 1, t.nSlots, t.idxOk, t.escOk, false⟩ : TplShape).nSlots) ≤
              CHAFA_TERM_SEQ_ARGS_MAX - 1 := hk
          have H := ih ⟨s.out ++ [c], s.slots, s.j + 1, s.k, s.preLen + 1⟩
            ⟨t.lit + 1, t.nSlots, t.idxOk, t.escOk, false⟩
            hesc hidx hpend htesc htidx hkIH
          cases H with
          | inl H =>
            obtain ⟨s2, hEq, h1, h2⟩ := H
            refine Or.inl ⟨s2, ?_, ?_, h2⟩
            · show scanTemplate n rest (scanStep n (ScanSt.running s false) c) =
                ScanSt.running s2 false
              rw [hstep]
              exact hEq
            · have h1b : s2.j + (t.lit + 1) = (s.j + 1) +
                  (rest.foldl (shapeStep n)
                    ⟨t.lit + 1, t.nSlots, t.idxOk, t.escOk, false⟩).lit := h1
              show s2.j + t.lit = s.j +
                (rest.foldl (shapeStep n)
                  ⟨t.lit + 1, t.nSlots, t.idxOk, t.escOk, false⟩).lit
              omega
          | inr H =>
            obtain ⟨s2, hEq, hj96, h1, h2⟩ := H
            refine Or.inr ⟨s2, ?_, hj96, ?_, h2⟩
            · show scanTemplate n rest (scanStep n (ScanSt.running s false) c) =
                ScanSt.stopped s2
              rw [hstep]
              exact hEq
            · have h1b : s2.j + (t.lit + 1) ≤ (s.j + 1) +
                  (rest.foldl (shapeStep n)
                    ⟨t.lit + 1, t.nSlots, t.idxOk, t.escOk, false⟩).lit := h1
              show s2.j + t.lit ≤ s.j +
                (rest.foldl (shapeStep n)
                  ⟨t.lit + 1, t.nSlots, t.idxOk, t.escOk, false⟩).lit
              omega
      · have hstep : scanStep n (ScanSt.running s false) c = ScanSt.stopped s := by
          simp only [scanStep]
          rw [if_neg (by simp), if_neg hg]
        have hmono := shape_mono n rest (shapeStep n t c)
        have hmonoStep : t.lit ≤ (shapeStep n t c).lit ∧
            t.nSlots ≤ (shapeStep n t c).nSlots := by
          simp only [shapeStep, hp]
          rw [if_neg (by simp)]
          split
          · exact ⟨le_refl _, le_refl _⟩
          · exact ⟨Nat.le_succ _, le_refl _⟩
        refine Or.inr ⟨s, ?_, ?_, by omega, by omega⟩
        · show scanTemplate n rest (scanStep n (ScanSt.running s false) c) =
            ScanSt.stopped s
          rw [hstep]
          exact scanTemplate_stopped n s rest
        · show CHAFA_TERM_SEQ_LENGTH_MAX ≤ s.j
          have hkk : s.k ≤ CHAFA_TERM_SEQ_ARGS_MAX - 1 := by omega
          simp only [CHAFA_TERM_SEQ_LENGTH_MAX, CHAFA_TERM_SEQ_ARGS_MAX] at hg hkk ⊢
          omega


/-- C7: for a syntactically well-formed template whose placeholder
count fits the slot table, the set operation reports
sequence-too-long exactly when the template's total literal byte count
plus its placeholder count times the worst-case digit width (3 for
byte-sized argument kinds, 4 for wider kinds) plus the one reserved
slack byte exceeds CHAFA_TERM_SEQ_LENGTH_MAX; when that budget fits,
the set operation succeeds. -/
theorem C7_seq_too_long (h : Heap) (t : TermInfo) (seq : Int) (m : SeqMeta)
    (inp : List Char)
    (hg : 0 ≤ seq ∧ seq < (CHAFA_TERM_SEQ_MAX : Int))
    (hwf : templateWF m.n_args inp = true)
    (hk7 : slotCount inp ≤ CHAFA_TERM_SEQ_ARGS_MAX - 1) :
    ((chafa_term_info_set_seq h t seq m (some inp)).2.1 = some ParseError.seqTooLong ↔
      CHAFA_TERM_SEQ_LENGTH_MAX <
        litLen inp + slotCount inp * (if m.type_size = 1 then 3 else 4) + 1) ∧
    (litLen inp + slotCount inp * (if m.type_size = 1 then 3 else 4) + 1 ≤
        CHAFA_TERM_SEQ_LENGTH_MAX →
      (chafa_term_info_set_seq h t seq m (some inp)).1 = true) := by
  have h8 : CHAFA_TERM_SEQ_ARGS_MAX = 8 := rfl
  have h96 : CHAFA_TERM_SEQ_LENGTH_MAX = 96 := rfl
  have hwf3 : (tplShape m.n_args inp).escOk = true ∧
      (tplShape m.n_args inp).idxOk = true ∧
      (tplShape m.n_args inp).pending = false := by
    simp only [templateWF, Bool.and_eq_true, Bool.not_eq_true'] at hwf
    exact ⟨hwf.1.1, hwf.2, hwf.1.2⟩
  have hcnt := shape_counters_congr m.n_args 0 inp ⟨0, 0, true, true, false⟩
    ⟨0, 0, true, true, false⟩ rfl rfl rfl
  have hTL : (tplShape m.n_args inp).lit = litLen inp := hcnt.1
  have hTS : (tplShape m.n_args inp).nSlots = slotCount inp := hcnt.2.1
  have HS := scan_vs_shape m.n_args inp ⟨[], [], 0, 0, 0⟩ ⟨0, 0, true, true, false⟩
    hwf3.1 hwf3.2.1 hwf3.2.2 rfl rfl (by
      show (0 : Nat) + ((tplShape m.n_args inp).nSlots - 0) ≤ CHAFA_TERM_SEQ_ARGS_MAX - 1
      rw [hTS]
      omega)
  cases HS with
  | inl HS =>
    obtain ⟨s2, hEq, h1, h2⟩ := HS
    have hj : s2.j = litLen inp := by
      have h1b : s2.j + 0 = 0 + (tplShape m.n_args inp).lit := h1
      rw [hTL] at h1b
      omega
    have hkk : s2.k = slotCount inp := by
      have h2b : s2.k + 0 = 0 + (tplShape m.n_args inp).nSlots := h2
      rw [hTS] at h2b
      omega
    have hfin : finishScan (scanTemplate m.n_args inp
        (ScanSt.running ⟨[], [], 0, 0, 0⟩ false)) = Except.ok s2 := by
      rw [show scanTemplate m.n_args inp (ScanSt.running ⟨[], [], 0, 0, 0⟩ false) =
        ScanSt.running s2 false from hEq]
      rfl
    have hpar : parse_seq_args inp m.n_args (if m.type_size = 1 then 3 else 4) =
        if s2.k = CHAFA_TERM_SEQ_ARGS_MAX then Except.error ParseError.badArguments
        else if CHAFA_TERM_SEQ_LENGTH_MAX <
            s2.j + s2.k * (if m.type_size = 1 then 3 else 4) + 1 then
          Except.error ParseError.seqTooLong
        else Except.ok (s2.out, s2.slots ++ ⟨s2.preLen, ARG_INDEX_SENTINEL⟩ ::
          List.replicate (CHAFA_TERM_SEQ_ARGS_MAX - 1 - s2.k) ⟨0, ARG_INDEX_SENTINEL⟩) := by
      simp only [parse_seq_args, hfin]
    have hk8 : ¬(s2.k = CHAFA_TERM_SEQ_ARGS_MAX) := by omega
    rw [if_neg hk8] at hpar
    by_cases hlong : CHAFA_TERM_SEQ_LENGTH_MAX <
        s2.j + s2.k * (if m.type_size = 1 then 3 else 4) + 1
    · rw [if_pos hlong] at hpar
      have hset : chafa_term_info_set_seq h t seq m (some inp) =
          (false, some ParseError.seqTooLong, h, t) := by
        simp only [chafa_term_info_set_seq, if_pos hg, hpar]
        rfl
      refine ⟨iff_of_true (by rw [hset]) (by rw [← hj, ← hkk]; exact hlong), ?_⟩
      intro hle
      rw [← hj, ← hkk] at hle
      omega
    · rw [if_neg hlong] at hpar
      have hset : (chafa_term_info_set_seq h t seq m (some inp)).1 = true ∧
          (chafa_term_info_set_seq h t seq m (some inp)).2.1 = none := by
        simp only [chafa_term_info_set_seq, if_pos hg, hpar]
        exact ⟨trivial, trivial⟩
      refine ⟨iff_of_false (by rw [hset.2]; simp) ?_, fun _ => hset.1⟩
      rw [← hj, ← hkk]
      exact hlong
  | inr HS =>
    obtain ⟨s2, hEq, hj96, h1, h2⟩ := HS
    have hj : s2.j ≤ litLen inp := by
      have h1b : s2.j + 0 ≤ 0 + (tplShape m.n_args inp).lit := h1
      rw [hTL] at h1b
      omega
    have hkk : s2.k ≤ slotCount inp := by
      have h2b : s2.k + 0 ≤ 0 + (tplShape m.n_args inp).nSlots := h2
      rw [hTS] at h2b
      omega
    have hfin : finishScan (scanTemplate m.n_args inp
        (ScanSt.running ⟨[], [], 0, 0, 0⟩ false)) = Except.ok s2 := by
      rw [show scanTemplate m.n_args inp (ScanSt.running ⟨[], [], 0, 0, 0⟩ false) =
        ScanSt.stopped s2 from hEq]
      rfl
    have hpar : parse_seq_args inp m.n_args (if m.type_size = 1 then 3 else 4) =
        if s2.k = CHAFA_TERM_SEQ_ARGS_MAX then Except.error ParseError.badArguments
        else if CHAFA_TERM_SEQ_LENGTH_MAX <
            s2.j + s2.k * (if m.type_size = 1 then 3 else 4) + 1 then
          Except.error ParseError.seqTooLong
        else Except.ok (s2.out, s2.slots ++ ⟨s2.preLen, ARG_INDEX_SENTINEL⟩ ::
          List.replicate (CHAFA_TERM_SEQ_ARGS_MAX - 1 - s2.k) ⟨0, ARG_INDEX_SENTINEL⟩) := by
      simp only [parse_seq_args, hfin]
    have hk8 : ¬(s2.k = CHAFA_TERM_SEQ_ARGS_MAX) := by omega
    have hlong : CHAFA_TERM_SEQ_LENGTH_MAX <
        s2.j + s2.k * (if m.type_size = 1 then 3 else 4) + 1 := by omega
    rw [if_neg hk8, if_pos hlong] at hpar
    have hset : chafa_term_info_set_seq h t seq m (some inp) =
        (false, some ParseError.seqTooLong, h, t) := by
      simp only [chafa_term_info_set_seq, if_pos hg, hpar]
      rfl
    refine ⟨iff_of_true (by rw [hset]) (by omega), ?_⟩
    intro hle
    omega

theorem C7_seq_too_long_witness :
    templateWF 2 ['\x1b', '[', '%', '1', ';', '%', '2', 'm'] = true ∧
    (chafa_term_info_set_seq ⟨[]⟩ chafa_term_info_new 0 ⟨2, 4⟩
        (some ['\x1b', '[', '%', '1', ';', '%', '2', 'm'])).1 = true :=
  ⟨by decide,
    (C7_seq_too_long ⟨[]⟩ chafa_term_info_new 0 ⟨2, 4⟩
      ['\x1b', '[', '%', '1', ';', '%', '2', 'm']
      (by decide) (by decide) (by decide)).2 (by decide)⟩

/-- C8: the aixterm transforms map a color index v in [0,7] to 30+v
(foreground) and 40+v (background), and v in [8,15] to 90+(v-8) and
100+(v-8); in particular foreground 3 maps to 33 and foreground 10 maps
to 92. -/
theorem C8_aix16_mapping (v : Nat) (hv : v ≤ 15) :
    (v ≤ 7 → aix16fg v = 30 + v ∧ aix16bg v = 40 + v) ∧
    (8 ≤ v → aix16fg v = 90 + (v - 8) ∧ aix16bg v = 100 + (v - 8)) ∧
    aix16fg 3 = 33 ∧ aix16fg 10 = 92 := by
  refine ⟨?_, ?_, by decide, by decide⟩
  · intro h7
    have hlt : v < 8 := by omega
    simp only [aix16fg, aix16bg]
    rw [if_pos hlt, if_pos hlt]
    constructor <;> (rw [Nat.mod_eq_of_lt (by omega)]; omega)
  · intro h8
    have hge : ¬(v < 8) := by omega
    simp only [aix16fg, aix16bg]
    rw [if_neg hge, if_neg hge]
    constructor <;> (rw [Nat.mod_eq_of_lt (by omega)]; omega)

theorem C8_aix16_mapping_witness :
    aix16fg 10 = 90 + (10 - 8) ∧ aix16bg 10 = 100 + (10 - 8) :=
  (C8_aix16_mapping 10 (by decide)).2.1 (by decide)

/-- C10: the per-kind existence check returns FALSE and the raw
template getter returns NULL for an out-of-range kind, and for a NULL
container regardless of the kind. -/
theorem C10_range_guards (h : Heap) (t : TermInfo) (seq : Int)
    (hout : seq < 0 ∨ (CHAFA_TERM_SEQ_MAX : Int) ≤ seq) :
    chafa_term_info_have_seq (some t) seq = false ∧
    chafa_term_info_get_seq h (some t) seq = none ∧
    chafa_term_info_have_seq none seq = false ∧
    chafa_term_info_get_seq h none seq = none := by
  have hng : ¬(0 ≤ seq ∧ seq < (CHAFA_TERM_SEQ_MAX : Int)) := by
    rcases hout with h1 | h2
    · intro hc
      omega
    · intro hc
      omega
  refine ⟨?_, ?_, rfl, rfl⟩
  · simp only [chafa_term_info_have_seq, if_neg hng]
  · simp only [chafa_term_info_get_seq, if_neg hng]

theorem C10_range_guards_witness :
    chafa_term_info_have_seq (some chafa_term_info_new) (-1) = false ∧
    chafa_term_info_get_seq ⟨[]⟩ (some chafa_term_info_new) (-1) = none := by
  have H := C10_range_guards ⟨[]⟩ chafa_term_info_new (-1) (by decide)
  exact ⟨H.1, H.2.1⟩

theorem tiWF_elim (h : Heap) (t : TermInfo) (hwf : tiWF h t = true) :
    ∀ k, k < CHAFA_TERM_SEQ_MAX → ∀ a, t.unparsed_str k = some a →
      a < h.cells.length ∧ (h.get a).isSome = true := by
  intro k hk a ha
  simp only [tiWF, List.all_eq_true] at hwf
  have hthis := hwf k (List.mem_range.mpr hk)
  rw [ha] at hthis
  simp only [Bool.and_eq_true, decide_eq_true_eq] at hthis
  exact hthis

/-- The copy loop duplicates every configured kind below
CHAFA_TERM_SEQ_MAX into fresh heap cells without touching any existing
cell, and leaves kinds at or above the loop bound shared. -/
theorem copyKinds_spec (t : TermInfo) :
    ∀ (i : Nat) (h : Heap),
      (∀ j, j < i → ∀ a, t.unparsed_str j = some a → a < h.cells.length) →
      h.cells.length ≤ (copyKinds t i h).1.cells.length ∧
      (∀ a, a < h.cells.length →
        (copyKinds t i h).1.cells.getD a none = h.cells.getD a none) ∧
      (∀ j, i ≤ j → (copyKinds t i h).2 j = t.unparsed_str j) ∧
      (∀ j, j < i →
        (t.unparsed_str j = none → (copyKinds t i h).2 j = none) ∧
        (∀ a, t.unparsed_str j = some a →
          ∃ b, (copyKinds t i h).2 j = some b ∧ h.cells.length ≤ b ∧
            b < (copyKinds t i h).1.cells.length ∧
            (copyKinds t i h).1.get b = some ((h.get a).getD [])))
  | 0, h, hv =>
    ⟨le_refl _, fun _ _ => rfl, fun _ _ => rfl, fun j hj => absurd hj (by omega)⟩
  | i + 1, h, hv => by
    obtain ⟨ih1, ih2, ih3, ih4⟩ :=
      copyKinds_spec t i h (fun j hj => hv j (by omega))
    cases hti : t.unparsed_str i with
    | none =>
      have hred : copyKinds t (i + 1) h = copyKinds t i h := by
        simp only [copyKinds, hti]
      rw [hred]
      refine ⟨ih1, ih2, fun j hj => ih3 j (by omega), fun j hj => ?_⟩
      by_cases hji : j = i
      · subst hji
        refine ⟨fun _ => ?_, fun a ha => ?_⟩
        · rw [ih3 j (le_refl j), hti]
        · exact absurd (ha.symm.trans hti) (by simp)
      · exact ih4 j (by omega)
    | some a0 =>
      have ha0 : a0 < h.cells.length := hv i (by omega) a0 hti
      have hget : (copyKinds t i h).1.get a0 = h.get a0 := ih2 a0 ha0
      have hred : copyKinds t (i + 1) h =
          (⟨(copyKinds t i h).1.cells ++ [some (((copyKinds t i h).1.get a0).getD [])]⟩,
           fun j => if j = i then some (copyKinds t i h).1.cells.length
           else (copyKinds t i h).2 j) := by
        simp only [copyKinds, hti, Heap.alloc]
      rw [hred]
      refine ⟨?_, ?_, ?_, ?_⟩
      · simp only [List.length_append, List.length_singleton]
        omega
      · intro a ha
        show ((copyKinds t i h).1.cells ++ _).getD a none = h.cells.getD a none
        rw [listGetD_append_left none _ _ a (by omega)]
        exact ih2 a ha
      · intro j hj
        show (if j = i then _ else (copyKinds t i h).2 j) = t.unparsed_str j
        rw [if_neg (by omega)]
        exact ih3 j (by omega)
      · intro j hj
        by_cases hji : j = i
        · subst hji
          refine ⟨fun h0 => absurd (h0.symm.trans hti) (by simp), fun a2 ha2 => ?_⟩
          have haa : a2 = a0 := Option.some.inj (ha2.symm.trans hti)
          subst haa
          refine ⟨(copyKinds t j h).1.cells.length, ?_, ih1, ?_, ?_⟩
          · show (if j = j then some (copyKinds t j h).1.cells.length
                else (copyKinds t j h).2 j) = some (copyKinds t j h).1.cells.length
            rw [if_pos rfl]
          · simp only [List.length_append, List.length_singleton]
            omega
          · show ((copyKinds t j h).1.cells ++
                [some (((copyKinds t j h).1.get a2).getD [])]).getD
              (copyKinds t j h).1.cells.length none = some ((h.get a2).getD [])
            rw [listGetD_append_cons none _ _ []]
            rw [hget]
        · obtain ⟨hnone, hsome⟩ := ih4 j (by omega)
          refine ⟨fun h0 => ?_, fun a ha => ?_⟩
          · show (if j = i then _ else (copyKinds t i h).2 j) = none
            rw [if_neg hji]
            exact hnone h0
          · obtain ⟨b, hb1, hb2, hb3, hb4⟩ := hsome a ha
            refine ⟨b, ?_, hb2, ?_, ?_⟩
            · show (if j = i then _ else (copyKinds t i h).2 j) = some b
              rw [if_neg hji]
              exact hb1
            · simp only [List.length_append, List.length_singleton]
              omega
            · show ((copyKinds t i h).1.cells ++ _).getD b none = _
              rw [listGetD_append_left none _ _ b hb3]
              exact hb4

/-- set_seq never changes a heap cell other than the mutated kind's own
raw-template cell (freed) and the fresh cell appended for the new
template. -/
theorem set_seq_heap_frame (h2 : Heap) (tc : TermInfo) (seq : Int) (m : SeqMeta)
    (str : Option (List Char)) (a : Nat) (ha : a < h2.cells.length)
    (hb : 0 ≤ seq ∧ seq < (CHAFA_TERM_SEQ_MAX : Int) →
      ∀ b, tc.unparsed_str seq.toNat = some b → b ≠ a) :
    ((chafa_term_info_set_seq h2 tc seq m str).2.2.1).cells.getD a none =
      h2.cells.getD a none := by
  by_cases hg : 0 ≤ seq ∧ seq < (CHAFA_TERM_SEQ_MAX : Int)
  · have hfree : (heapFreeOpt h2 (tc.unparsed_str seq.toNat)).cells.getD a none =
        h2.cells.getD a none ∧
        h2.cells.length ≤ (heapFreeOpt h2 (tc.unparsed_str seq.toNat)).cells.length := by
      cases hu : tc.unparsed_str seq.toNat with
      | none => exact ⟨rfl, le_refl _⟩
      | some b =>
        constructor
        · show (h2.cells.set b none).getD a none = h2.cells.getD a none
          exact listGetD_set_ne none _ b a none (hb hg b hu)
        · show h2.cells.length ≤ (h2.cells.set b none).length
          simp
    cases str with
    | none =>
      simp only [chafa_term_info_set_seq, if_pos hg]
      exact hfree.1
    | some s =>
      cases hpe : parse_seq_args s m.n_args (if m.type_size = 1 then 3 else 4) with
      | error e =>
        simp only [chafa_term_info_set_seq, if_pos hg, hpe]
      | ok r =>
        simp only [chafa_term_info_set_seq, if_pos hg, hpe, Heap.alloc]
        show ((heapFreeOpt h2 (tc.unparsed_str seq.toNat)).cells ++ [some s]).getD a none =
          h2.cells.getD a none
        rw [listGetD_append_left none _ _ a (by
          have := hfree.2
          omega)]
        exact hfree.1
  · simp only [chafa_term_info_set_seq, if_neg hg]

/-- C9: a container copy is independent of the original, in both
directions: the copy holds a deep duplicate of every raw template
(equal string contents in fresh heap cells), shares the compiled rows
and slot tables by value, any subsequent set or clear performed on the
copy leaves every raw template of the original byte-identical, and any
set or clear performed on the original leaves every raw template of the
copy byte-identical. -/
theorem C9_copy_independent (h : Heap) (t : TermInfo) (hwf : tiWF h t = true) :
    (∀ k, k < CHAFA_TERM_SEQ_MAX →
      rawStringOf (chafa_term_info_copy h t).1 (chafa_term_info_copy h t).2 k =
        rawStringOf h t k) ∧
    (chafa_term_info_copy h t).2.seq_str = t.seq_str ∧
    (chafa_term_info_copy h t).2.seq_args = t.seq_args ∧
    (∀ (seq : Int) (m : SeqMeta) (str : Option (List Char)) (k : Nat),
      k < CHAFA_TERM_SEQ_MAX →
      rawStringOf (chafa_term_info_set_seq (chafa_term_info_copy h t).1
          (chafa_term_info_copy h t).2 seq m str).2.2.1 t k = rawStringOf h t k) ∧
    (∀ (seq : Int) (m : SeqMeta) (str : Option (List Char)) (k : Nat),
      k < CHAFA_TERM_SEQ_MAX →
      rawStringOf (chafa_term_info_set_seq (chafa_term_info_copy h t).1
          t seq m str).2.2.1 (chafa_term_info_copy h t).2 k =
        rawStringOf (chafa_term_info_copy h t).1 (chafa_term_info_copy h t).2 k) := by
  have hv : ∀ j, j < CHAFA_TERM_SEQ_MAX → ∀ a, t.unparsed_str j = some a →
      a < h.cells.length := fun j hj a ha => (tiWF_elim h t hwf j hj a ha).1
  obtain ⟨hs1, hs2, hs3, hs4⟩ := copyKinds_spec t CHAFA_TERM_SEQ_MAX h hv
  have hcopy2 : (chafa_term_info_copy h t).2.unparsed_str =
      (copyKinds t CHAFA_TERM_SEQ_MAX h).2 := rfl
  refine ⟨?_, rfl, rfl, ?_, ?_⟩
  · intro k hk
    obtain ⟨hnone, hsome⟩ := hs4 k hk
    cases ht : t.unparsed_str k with
    | none =>
      simp only [rawStringOf, hcopy2, hnone ht, ht]
    | some a =>
      obtain ⟨b, hb1, hb2, hb3, hb4⟩ := hsome a ht
      obtain ⟨hlt, hsome2⟩ := tiWF_elim h t hwf k hk a ht
      obtain ⟨s0, hs0⟩ := Option.isSome_iff_exists.mp hsome2
      simp only [rawStringOf, hcopy2, hb1, ht]
      show (copyKinds t CHAFA_TERM_SEQ_MAX h).1.get b = h.get a
      rw [hb4, hs0]
      rfl
  · intro seq m str k hk
    cases ht : t.unparsed_str k with
    | none => simp only [rawStringOf, ht]
    | some a =>
      have hlt := (tiWF_elim h t hwf k hk a ht).1
      have hframe := set_seq_heap_frame (chafa_term_info_copy h t).1
        (chafa_term_info_copy h t).2 seq m str a (by
          show a < (copyKinds t CHAFA_TERM_SEQ_MAX h).1.cells.length
          omega)
        (by
          intro hg b hbb
          have hk0 : seq.toNat < CHAFA_TERM_SEQ_MAX := by
            have h1 := hg.1
            have h2 := hg.2
            simp only [CHAFA_TERM_SEQ_MAX] at h2 ⊢
            omega
          rw [hcopy2] at hbb
          obtain ⟨hnone0, hsome0⟩ := hs4 seq.toNat hk0
          cases ht0 : t.unparsed_str seq.toNat with
          | none =>
            rw [hnone0 ht0] at hbb
            exact absurd hbb (by simp)
          | some a0 =>
            obtain ⟨b0, hb01, hb02, hb03, hb04⟩ := hsome0 a0 ht0
            rw [hb01] at hbb
            have hbeq : b = b0 := Option.some.inj hbb.symm
            omega)
      simp only [rawStringOf, ht]
      show ((chafa_term_info_set_seq (chafa_term_info_copy h t).1
        (chafa_term_info_copy h t).2 seq m str).2.2.1).cells.getD a none =
          h.cells.getD a none
      rw [hframe]
      exact hs2 a hlt
  · intro seq m str k hk
    obtain ⟨hnone, hsome⟩ := hs4 k hk
    cases ht : t.unparsed_str k with
    | none =>
      simp only [rawStringOf, hcopy2, hnone ht]
    | some a =>
      obtain ⟨b, hb1, hb2, hb3, hb4⟩ := hsome a ht
      have hframe := set_seq_heap_frame (chafa_term_info_copy h t).1 t seq m str b
        (by
          show b < (copyKinds t CHAFA_TERM_SEQ_MAX h).1.cells.length
          exact hb3)
        (by
          intro hg b0 hb0
          have hk0 : seq.toNat < CHAFA_TERM_SEQ_MAX := by
            have h1 := hg.1
            have h2 := hg.2
            simp only [CHAFA_TERM_SEQ_MAX] at h2 ⊢
            omega
          have := hv seq.toNat hk0 b0 hb0
          omega)
      simp only [rawStringOf, hcopy2, hb1]
      show ((chafa_term_info_set_seq (chafa_term_info_copy h t).1
        t seq m str).2.2.1).cells.getD b none =
          (chafa_term_info_copy h t).1.cells.getD b none
      exact hframe

theorem C9_copy_independent_witness :
    (rawStringOf
      (chafa_term_info_copy
        (chafa_term_info_set_seq ⟨[]⟩ chafa_term_info_new 0 ⟨0, 1⟩
          (some ['a', 'b'])).2.2.1
        (chafa_term_info_set_seq ⟨[]⟩ chafa_term_info_new 0 ⟨0, 1⟩
          (some ['a', 'b'])).2.2.2).1
      (chafa_term_info_copy
        (chafa_term_info_set_seq ⟨[]⟩ chafa_term_info_new 0 ⟨0, 1⟩
          (some ['a', 'b'])).2.2.1
        (chafa_term_info_set_seq ⟨[]⟩ chafa_term_info_new 0 ⟨0, 1⟩
          (some ['a', 'b'])).2.2.2).2
      0 =
    rawStringOf
      (chafa_term_info_set_seq ⟨[]⟩ chafa_term_info_new 0 ⟨0, 1⟩
        (some ['a', 'b'])).2.2.1
      (chafa_term_info_set_seq ⟨[]⟩ chafa_term_info_new 0 ⟨0, 1⟩
        (some ['a', 'b'])).2.2.2 0) ∧
    rawStringOf
      (chafa_term_info_set_seq
        (chafa_term_info_copy
          (chafa_term_info_set_seq ⟨[]⟩ chafa_term_info_new 0 ⟨0, 1⟩
            (some ['a', 'b'])).2.2.1
          (chafa_term_info_set_seq ⟨[]⟩ chafa_term_info_new 0 ⟨0, 1⟩
            (some ['a', 'b'])).2.2.2).1
        (chafa_term_info_set_seq ⟨[]⟩ chafa_term_info_new 0 ⟨0, 1⟩
          (some ['a', 'b'])).2.2.2 0 ⟨0, 1⟩ none).2.2.1
      (chafa_term_info_copy
        (chafa_term_info_set_seq ⟨[]⟩ chafa_term_info_new 0 ⟨0, 1⟩
          (some ['a', 'b'])).2.2.1
        (chafa_term_info_set_seq ⟨[]⟩ chafa_term_info_new 0 ⟨0, 1⟩
          (some ['a', 'b'])).2.2.2).2 0 =
    rawStringOf
      (chafa_term_info_copy
        (chafa_term_info_set_seq ⟨[]⟩ chafa_term_info_new 0 ⟨0, 1⟩
          (some ['a', 'b'])).2.2.1
        (chafa_term_info_set_seq ⟨[]⟩ chafa_term_info_new 0 ⟨0, 1⟩
          (some ['a', 'b'])).2.2.2).1
      (chafa_term_info_copy
        (chafa_term_info_set_seq ⟨[]⟩ chafa_term_info_new 0 ⟨0, 1⟩
          (some ['a', 'b'])).2.2.1
        (chafa_term_info_set_seq ⟨[]⟩ chafa_term_info_new 0 ⟨0, 1⟩
          (some ['a', 'b'])).2.2.2).2 0 :=
  ⟨(C9_copy_independent _ _ (by decide)).1 0 (by decide),
   (C9_copy_independent _ _ (by decide)).2.2.2.2 0 ⟨0, 1⟩ none 0 (by decide)⟩
